import Mathlib

/-!
# kube-ops-view front end: the `App` class of `app/src/app.js`

A shallow embedding of the state synchronisation and reconciliation engine of
`app.js`: the reconnecting EventSource connection, the cluster store, the
reconciliation pass `update()` and the URL-fragment settings.

JavaScript values are modelled as follows.

* strings are `String`; where JavaScript compares strings it compares their
  UTF-16 code units, which `codeUnits` computes;
* a `Set` of strings is a `List String` in insertion order (`Set_has`,
  `Set_add`, `Set_delete`);
* a `Map` with string keys is an association list in insertion order
  (`Map_get`, `Map_set`);
* an object used as a dictionary is the list of its entries in the order
  `Object.keys` / `Object.values` enumerate them;
* EventSource objects and timer handles are natural numbers handed out by a
  counter; the browser's sets of open sources and of armed timers are explicit
  state;
* `document.location.hash` is plain text storage: what is written is what is
  read back;
* the plain object `clusterComponentById` is the list of its own entries
  together with `inheritedMember`, the names every plain object inherits
  (`constructor`, `toString`, ...): a lookup of such a name without own entry
  answers with the inherited member, on which `draw()` is not a function, so
  `update` throws; `update` and `toggleCluster` give the state the method
  leaves, and `updateThrows` tells whether it threw.

The code of `pod.js`, `cluster.js` and `vendor/json_delta.js` is reached
through the parameters of `Collaborators`.
-/

namespace KubeOpsView

/-! ## JavaScript strings -/

/-- UTF-16 code units of one character (a surrogate pair above the BMP). -/
def charUnits (c : Char) : List Nat :=
  if c.toNat < 65536 then [c.toNat]
  else [55296 + (c.toNat - 65536) / 1024, 56320 + (c.toNat - 65536) % 1024]

/-- UTF-16 code units of a list of characters. -/
def unitsOf : List Char → List Nat
  | [] => []
  | c :: cs => charUnits c ++ unitsOf cs

/-- UTF-16 code units of a string, the sequence JavaScript compares. -/
def codeUnits (s : String) : List Nat := unitsOf s.data

/-- Lexicographic `a <= b` on code-unit sequences. -/
def unitsLe : List Nat → List Nat → Bool
  | [], _ => true
  | _ :: _, [] => false
  | a :: x, b :: y => decide (a < b) || (a == b && unitsLe x y)

/-- JavaScript string comparison `a <= b` (by code unit). -/
def jsLe (a b : String) : Prop := unitsLe (codeUnits a) (codeUnits b) = true

instance jsLe_decidable : DecidableRel jsLe := fun a b =>
  inferInstanceAs (Decidable (unitsLe (codeUnits a) (codeUnits b) = true))

/-- `String.prototype.split(sep)` for a one-character separator, on characters. -/
def splitChars (sep : Char) : List Char → List (List Char)
  | [] => [[]]
  | c :: cs =>
    if c = sep then [] :: splitChars sep cs
    else
      match splitChars sep cs with
      | [] => [[c]]
      | p :: ps => (c :: p) :: ps

/-- `s.split(sep)` for a one-character separator. -/
def split (sep : Char) (s : String) : List String :=
  (splitChars sep s.data).map String.mk

/-- `parts.join(sep)`. -/
def join (sep : String) : List String → String
  | [] => ""
  | [s] => s
  | s :: t :: rest => s ++ sep ++ join sep (t :: rest)

/-- `s.substring(1)`. -/
def substring1 (s : String) : String := String.mk s.data.tail

/-! ## JavaScript collections -/

/-- `set.has(x)`. -/
def Set_has (s : List String) (x : String) : Bool := s.contains x

/-- `set.add(x)`: appended at the end unless already present. -/
def Set_add (s : List String) (x : String) : List String :=
  if Set_has s x then s else s ++ [x]

/-- `set.delete(x)`. -/
def Set_delete (s : List String) (x : String) : List String :=
  s.filter (fun y => y != x)

/-- `new Set(array)`. -/
def Set_of (xs : List String) : List String := xs.foldl Set_add []

/-- `map.get(k)`; `none` is `undefined`. -/
def Map_get {β : Type} : List (String × β) → String → Option β
  | [], _ => none
  | (k, v) :: rest, key => if k = key then some v else Map_get rest key

/-- `map.set(k, v)`: an existing key keeps its position, a new one goes last. -/
def Map_set {β : Type} : List (String × β) → String → β → List (String × β)
  | [], key, val => [(key, val)]
  | (k, v) :: rest, key, val =>
    if k = key then (k, val) :: rest else (k, v) :: Map_set rest key val

/-- The number held by `_errors`. The constructor never assigns the field, so it
is `undefined` until a handler writes it. -/
inductive JSNumber where
  | undefined
  | NaN
  | num (n : Nat)
  deriving DecidableEq, Repr

/-- `x++` on a number field: `undefined` and `NaN` become `NaN`. Doubles count
exactly up to `2 ^ 53`, where adding one no longer changes the value; the
counter starts from `0`, so it never holds a larger value. -/
def JSNumber.incr : JSNumber → JSNumber
  | .undefined => .NaN
  | .NaN => .NaN
  | .num n => .num (if n < 2 ^ 53 then n + 1 else n)

/-- `x <= 1`: false for `undefined` and `NaN`. -/
def JSNumber.le1 : JSNumber → Bool
  | .undefined => false
  | .NaN => false
  | .num n => decide (n ≤ 1)

/-! ## Data model -/

/-- A pod of a cluster snapshot; its other fields play no part in the engine. -/
structure PodSnapshot where
  podNamespace : String
  name : String
  deriving DecidableEq, Repr

/-- A node of a cluster snapshot: `pods` in `Object.values` order. -/
structure NodeSnapshot where
  pods : List (String × PodSnapshot)
  deriving DecidableEq, Repr

/-- The payload of a `clusterupdate` event and the value stored per cluster. -/
structure ClusterSnapshot where
  id : String
  nodes : List (String × NodeSnapshot)
  unassigned_pods : List (String × PodSnapshot)
  deriving DecidableEq, Repr

/-- A `Cluster` component of `viewContainer.children`. -/
structure ClusterBox where
  cluster : ClusterSnapshot
  x : Nat
  y : Nat
  height : Nat
  deriving DecidableEq, Repr

/-- Method calls recorded in the order they start. -/
inductive Call where
  | connect
  | disconnect
  | keepAlive
  | update
  deriving DecidableEq, Repr

/-- The collaborators of `app.js` that live in other modules. `patch` is
`JSON_delta.patch` (`none` when it throws); `draw` is what `Cluster.draw()`
does to the keys of the pod registry `ALL_PODS` of `pod.js`; `height` is the
height of a drawn cluster component. -/
structure Collaborators (δ : Type) where
  patch : ClusterSnapshot → δ → Option ClusterSnapshot
  draw : ClusterSnapshot → List String → List String
  height : ClusterSnapshot → Nat

/-- The `App` object together with the browser state its methods act on. -/
structure App where
  filterString : String
  selectedClusters : List String
  seenPods : List String
  eventSource : Option Nat
  keepAliveTimer : Option Nat
  keepAliveSeconds : Nat
  _errors : JSNumber
  clusters : List (String × ClusterSnapshot)
  /-- The text of `document.location.hash`. -/
  hash : String
  /-- The keys of `ALL_PODS`, in `Object.keys` order. -/
  ALL_PODS : List String
  /-- The array `viewContainer.children`. -/
  children : List ClusterBox
  /-- EventSource objects that are not closed. -/
  openSources : List Nat
  /-- Keep-alive timers armed and neither fired nor cleared. -/
  pendingTimers : List Nat
  /-- The next handle the browser hands out. -/
  nextHandle : Nat
  /-- The URL each EventSource was opened with. -/
  urls : List (Nat × String)
  calls : List Call
  deriving DecidableEq, Repr

/-! ## URL fragment -/

/-- The method `parseLocationHash`, reading the fragment `hash`. -/
def parseLocationHash (hash : String) : List (String × String) :=
  (split ';' (substring1 hash)).foldl
    (fun params pair =>
      match (split '=' pair).take 2 with
      | [k, v] => Map_set params k v
      | _ => params)
    []

/-- The method `changeLocationHash`: the fragment written for `key`, `value`. -/
def changeLocationHash (hash key value : String) : String :=
  let params := Map_set (parseLocationHash hash) key value
  let pairs := (params.filter (fun kv => kv.2 != "")).map (fun kv => kv.1 ++ "=" ++ kv.2)
  "#" ++ join ";" (pairs.insertionSort jsLe)

/-- The filter string the constructor reads: `params.get('q') || ''`. -/
def readFilterString (hash : String) : String :=
  (Map_get (parseLocationHash hash) "q").getD ""

/-- The selected clusters the constructor reads from the fragment. -/
def readSelectedClusters (hash : String) : List String :=
  Set_of ((split ',' ((Map_get (parseLocationHash hash) "clusters").getD "")).filter
    (fun x => x != ""))

/-- The constructor, in a freshly loaded page whose fragment is `hash`: the
registry `ALL_PODS` is empty and `viewContainer`, once `draw()` has made it,
has no children. The field `_errors` is not assigned. -/
def App.constructor (hash : String) : App where
  filterString := readFilterString hash
  selectedClusters := readSelectedClusters hash
  seenPods := []
  eventSource := none
  keepAliveTimer := none
  keepAliveSeconds := 20
  _errors := .undefined
  clusters := []
  hash := hash
  ALL_PODS := []
  children := []
  openSources := []
  pendingTimers := []
  nextHandle := 0
  urls := []
  calls := []

/-! ## Connection -/

/-- The method `keepAlive`. -/
def keepAlive (a : App) : App :=
  let a := { a with calls := a.calls ++ [Call.keepAlive] }
  let a :=
    match a.keepAliveTimer with
    | some t => { a with pendingTimers := a.pendingTimers.filter (fun u => u != t) }
    | none => a
  { a with
    keepAliveTimer := some a.nextHandle
    pendingTimers := a.pendingTimers ++ [a.nextHandle]
    nextHandle := a.nextHandle + 1 }

/-- The method `disconnect`. -/
def disconnect (a : App) : App :=
  let a := { a with calls := a.calls ++ [Call.disconnect] }
  match a.eventSource with
  | some es =>
    { a with openSources := a.openSources.filter (fun s => s != es), eventSource := none }
  | none => a

/-- The URL `connect` opens. -/
def eventsUrl (selectedClusters : List String) : String :=
  let clusterIds := join "," selectedClusters
  if clusterIds != "" then "events" ++ "?cluster_ids=" ++ clusterIds else "events"

/-- The method `connect`, up to the registration of the three handlers, which
are `onerror`, `onClusterupdate` and `onClusterdelta` below. -/
def connect (a : App) : App :=
  let a := disconnect { a with calls := a.calls ++ [Call.connect] }
  let a := { a with
    eventSource := some a.nextHandle
    openSources := a.openSources ++ [a.nextHandle]
    urls := a.urls ++ [(a.nextHandle, eventsUrl a.selectedClusters)]
    nextHandle := a.nextHandle + 1 }
  keepAlive a

/-- The handler `eventSource.onerror`. -/
def onerror (a : App) : App :=
  let a := { a with _errors := a._errors.incr }
  if a._errors.le1 then connect a else disconnect a

/-! ## Reconciliation pass -/

/-- The result of `String(entry)` for an entry `[id, cluster]` of the map: the
id, a comma and the text of a plain object. Default `sort()` compares these. -/
def entryString (e : String × ClusterSnapshot) : String := e.1 ++ ",[object Object]"

/-- The order the default `Array.prototype.sort` uses on map entries. -/
def entryLe (e₁ e₂ : String × ClusterSnapshot) : Prop :=
  jsLe (entryString e₁) (entryString e₂)

instance entryLe_decidable : DecidableRel entryLe := fun e₁ e₂ =>
  inferInstanceAs (Decidable (jsLe (entryString e₁) (entryString e₂)))

/-- First line of `update`:
`Array.from(this.clusters.entries()).sort().map(idCluster => idCluster[1])`. -/
def sortedClusters (clusters : List (String × ClusterSnapshot)) : List ClusterSnapshot :=
  (clusters.insertionSort entryLe).map (fun idCluster => idCluster.2)

/-- The key `cluster.id + '/' + pod.namespace + '/' + pod.name`. -/
def podKey (cluster : ClusterSnapshot) (pod : PodSnapshot) : String :=
  cluster.id ++ "/" ++ pod.podNamespace ++ "/" ++ pod.name

/-- The set `podKeys` built by the first loop of `update`. -/
def podKeysOf (clusters : List ClusterSnapshot) : List String :=
  clusters.foldl
    (fun podKeys cluster =>
      let podKeys := cluster.nodes.foldl
        (fun podKeys node =>
          node.2.pods.foldl (fun podKeys pod => Set_add podKeys (podKey cluster pod.2)) podKeys)
        podKeys
      cluster.unassigned_pods.foldl
        (fun podKeys pod => Set_add podKeys (podKey cluster pod.2)) podKeys)
    []

/-- The two animations `update` starts through `window.setTimeout`. -/
inductive Transition where
  | deletion
  | creation
  deriving DecidableEq, Repr

/-- One call `window.setTimeout(..., delay)` made by `update`. -/
structure Timeout where
  delay : Nat
  kind : Transition
  key : String
  deriving DecidableEq, Repr

/-- The variables of one run of `update` that its two pod loops share, and a
record of what the loops did. -/
structure Pass where
  ALL_PODS : List String
  seenPods : List String
  changes : Nat
  /-- Calls of `window.setTimeout`, in order. -/
  timeouts : List Timeout
  /-- Keys whose component got `pod.destroy()` at once. -/
  destroyed : List String
  /-- Keys that took the branch "pod was deleted". -/
  deleted : List String
  /-- Keys that took the branch "pod was created". -/
  created : List String
  deriving DecidableEq, Repr

/-- Body of the loop over `Object.keys(ALL_PODS)` that detects deleted pods. -/
def deletionStep (podKeys : List String) (p : Pass) (key : String) : Pass :=
  if !Set_has podKeys key then
    let p := { p with
      ALL_PODS := p.ALL_PODS.filter (fun k => k != key)
      seenPods := Set_delete p.seenPods key
      deleted := p.deleted ++ [key] }
    let p :=
      if p.changes < 10 then
        { p with timeouts := p.timeouts ++ [⟨100 * p.changes, .deletion, key⟩] }
      else
        { p with destroyed := p.destroyed ++ [key] }
    { p with changes := p.changes + 1 }
  else p

/-- Body of the loop over `Object.keys(ALL_PODS)` that detects created pods. -/
def creationStep (firstTime : Bool) (p : Pass) (key : String) : Pass :=
  if !Set_has p.seenPods key then
    let p := { p with seenPods := Set_add p.seenPods key, created := p.created ++ [key] }
    let p :=
      if !firstTime && decide (p.changes < 10) then
        { p with timeouts := p.timeouts ++ [⟨100 * p.changes, .creation, key⟩] }
      else p
    { p with changes := p.changes + 1 }
  else p

/-- The names of the members every plain object inherits from
`Object.prototype`. A lookup `clusterComponentById[id]` with such a name and
no own entry answers with the inherited member, which is not a component. -/
def inheritedMember (id : String) : Bool :=
  ["constructor", "__defineGetter__", "__defineSetter__", "hasOwnProperty",
   "__lookupGetter__", "__lookupSetter__", "isPrototypeOf", "propertyIsEnumerable",
   "toString", "valueOf", "__proto__", "toLocaleString"].contains id

/-- The own entries of the object `clusterComponentById`: for each cluster id
the index in `viewContainer.children` of the last component showing it. An
assignment to the key `__proto__` makes no own entry (it replaces the
prototype of the object instead; no component of a reachable state has that
id, see `run_children_ids`, and the theorems about the components assume
so). -/
def clusterComponentById (children : List ClusterBox) : List (String × Nat) :=
  (children.zip (List.range children.length)).foldl
    (fun byId ci =>
      if ci.1.cluster.id = "__proto__" then byId else Map_set byId ci.1.cluster.id ci.2) []

/-- The variables of the loop of `update` that rebuilds the components. -/
structure Rebuild where
  children : List ClusterBox
  ALL_PODS : List String
  y : Nat
  clusterIds : List String
  /-- The cluster ids and the positions `y` given to their components, in the
  order of assignment. -/
  layout : List (String × Nat)
  /-- The loop has thrown: `clusterBox.draw()` was called on a value that is
  not a component. -/
  threw : Bool
  deriving DecidableEq, Repr

/-- Body of the loop over `clusters` that reuses or creates the component of
each selected cluster, draws it and stacks it at `y`. When
`clusterComponentById[cluster.id]` has no own entry and the id names an
inherited member, `clusterBox` is that member: no component is created and
`clusterBox.draw()` throws, which ends the loop and the run of `update`. -/
def rebuildStep {δ : Type} (env : Collaborators δ) (selectedClusters : List String)
    (byId : List (String × Nat)) (r : Rebuild) (cluster : ClusterSnapshot) : Rebuild :=
  if r.threw then r
  else if selectedClusters.length == 0 || Set_has selectedClusters cluster.id then
    let box : ClusterBox :=
      { cluster := cluster, x := 0, y := r.y, height := env.height cluster }
    match Map_get byId cluster.id with
    | some i =>
      { r with
        children := r.children.set i box
        ALL_PODS := env.draw cluster r.ALL_PODS
        y := r.y + (env.height cluster + 10)
        clusterIds := Set_add r.clusterIds cluster.id
        layout := r.layout ++ [(cluster.id, r.y)] }
    | none =>
      if inheritedMember cluster.id then
        { r with clusterIds := Set_add r.clusterIds cluster.id, threw := true }
      else
        { r with
          children := r.children ++ [box]
          ALL_PODS := env.draw cluster r.ALL_PODS
          y := r.y + (env.height cluster + 10)
          clusterIds := Set_add r.clusterIds cluster.id
          layout := r.layout ++ [(cluster.id, r.y)] }
  else r

/-- The loop `for (const component of this.viewContainer.children)` that calls
`removeChild`: the iterator reads the live array at index `i`, and
`removeChild` takes the component out of that same array. `fuel` bounds the
number of iterations. -/
def removalLoop (clusterIds : List String) : Nat → Nat → List ClusterBox → List ClusterBox
  | 0, _, children => children
  | fuel + 1, i, children =>
    match children.get? i with
    | none => children
    | some component =>
      if !Set_has clusterIds component.cluster.id then
        removalLoop clusterIds fuel (i + 1) (children.eraseIdx i)
      else
        removalLoop clusterIds fuel (i + 1) children

/-- The method `filter`, as far as it changes state kept here: it writes the
filter string to the fragment. -/
def filter (a : App) : App :=
  { a with hash := changeLocationHash a.hash "q" a.filterString }

/-- What one run of `update` did. -/
structure PassLog where
  firstTime : Bool
  podKeys : List String
  /-- The clusters in the order `update` walks them. -/
  clusters : List ClusterSnapshot
  /-- The shared variables after the deletion loop. -/
  afterDeletion : Pass
  /-- The shared variables when the run ends: after the creation loop, or, when
  the rebuild loop threw, as the deletion loop left them. -/
  afterCreation : Pass
  /-- The components and `clusterIds` after the rebuild loop. -/
  rebuilt : Rebuild
  /-- The run ended with an exception. -/
  threw : Bool
  deriving DecidableEq, Repr

/-- The method `update`, with the record of the run. The state returned is the
one the method leaves, whether it returns or throws: when the rebuild loop
throws, the removal loop, `filter()` and the creation loop do not run. -/
def updatePass {δ : Type} (env : Collaborators δ) (a : App) : App × PassLog :=
  let a := { a with calls := a.calls ++ [Call.update] }
  let clusters := sortedClusters a.clusters
  let firstTime := a.seenPods.length == 0
  let podKeys := podKeysOf clusters
  let p₀ : Pass :=
    { ALL_PODS := a.ALL_PODS, seenPods := a.seenPods, changes := 0, timeouts := [],
      destroyed := [], deleted := [], created := [] }
  let p₁ := a.ALL_PODS.foldl (deletionStep podKeys) p₀
  let r₀ : Rebuild :=
    { children := a.children, ALL_PODS := p₁.ALL_PODS, y := 0, clusterIds := [], layout := [],
      threw := false }
  let r := clusters.foldl (rebuildStep env a.selectedClusters (clusterComponentById a.children)) r₀
  if r.threw then
    ({ a with children := r.children, ALL_PODS := r.ALL_PODS, seenPods := p₁.seenPods },
     { firstTime := firstTime, podKeys := podKeys, clusters := clusters, afterDeletion := p₁,
       afterCreation := { p₁ with ALL_PODS := r.ALL_PODS }, rebuilt := r, threw := true })
  else
    let children := removalLoop r.clusterIds (r.children.length + 1) 0 r.children
    let a := filter { a with children := children }
    let p₂ := r.ALL_PODS.foldl (creationStep firstTime) { p₁ with ALL_PODS := r.ALL_PODS }
    ({ a with ALL_PODS := p₂.ALL_PODS, seenPods := p₂.seenPods },
     { firstTime := firstTime, podKeys := podKeys, clusters := clusters, afterDeletion := p₁,
       afterCreation := p₂, rebuilt := r, threw := false })

/-- The state the method `update` leaves, whether it returns or throws. -/
def update {δ : Type} (env : Collaborators δ) (a : App) : App := (updatePass env a).1

/-- The call `update()` in the state `a` throws. -/
def updateThrows {δ : Type} (env : Collaborators δ) (a : App) : Bool :=
  (updatePass env a).2.threw

/-- The method `toggleCluster`: the state it leaves, whether it returns or its
call of `update` throws. -/
def toggleCluster {δ : Type} (env : Collaborators δ) (a : App) (clusterId : String) : App :=
  let a :=
    if Set_has a.selectedClusters clusterId then
      { a with selectedClusters := Set_delete a.selectedClusters clusterId }
    else
      { a with selectedClusters := Set_add a.selectedClusters clusterId }
  let a := { a with hash := changeLocationHash a.hash "clusters" (join "," a.selectedClusters) }
  update env (connect a)

/-! ## Event handlers -/

/-- The text `event.data` as `JSON.parse` sees it: malformed text makes it
throw, well-formed text yields the decoded value. -/
inductive EventData (α : Type) where
  | malformed (text : String)
  | wellFormed (value : α)
  deriving DecidableEq, Repr

/-- The function `JSON.parse`; `none` when it throws. -/
def JSON_parse {α : Type} : EventData α → Option α
  | .malformed _ => none
  | .wellFormed v => some v

/-- The decoded payload of a `clusterdelta` event. `delta` is `none` when
`data.delta` is missing or falsy. -/
structure DeltaData (δ : Type) where
  cluster_id : String
  delta : Option δ

/-- The listener for `clusterupdate`. `Except.error` holds the state in which
the listener threw. -/
def onClusterupdate {δ : Type} (env : Collaborators δ) (a : App)
    (data : EventData ClusterSnapshot) : Except App App :=
  let a := { a with _errors := .num 0 }
  let a := keepAlive a
  match JSON_parse data with
  | none => .error a
  | some cluster =>
    let a := { a with clusters := Map_set a.clusters cluster.id cluster }
    if updateThrows env a then .error (update env a) else .ok (update env a)

/-- The listener for `clusterdelta`. `Except.error` holds the state in which
the listener threw. The deep copy `JSON.parse(JSON.stringify(cluster))` of a
snapshot is the snapshot. -/
def onClusterdelta {δ : Type} (env : Collaborators δ) (a : App)
    (data : EventData (DeltaData δ)) : Except App App :=
  let a := { a with _errors := .num 0 }
  let a := keepAlive a
  match JSON_parse data with
  | none => .error a
  | some data =>
    match Map_get a.clusters data.cluster_id, data.delta with
    | some cluster, some delta =>
      match env.patch cluster delta with
      | none => .error a
      | some cluster =>
        let a := { a with clusters := Map_set a.clusters cluster.id cluster }
        if updateThrows env a then .error (update env a) else .ok (update env a)
    | _, _ => .ok a

/-- The state a listener leaves, whether it returned or threw. -/
def settle : Except App App → App
  | .ok a => a
  | .error a => a

/-! ## Runs of the application -/

/-- What can happen to a running `App`: a method call, the keep-alive timer
`timer` firing, or the browser delivering an event at the EventSource `source`.
For an error event `closed` tells whether the browser closed the source itself
before reporting the error. -/
inductive Action (δ : Type) where
  | connect
  | disconnect
  | keepAlive
  | toggleCluster (clusterId : String)
  | timerFires (timer : Nat)
  | error (source : Nat) (closed : Bool)
  | clusterupdate (source : Nat) (data : EventData ClusterSnapshot)
  | clusterdelta (source : Nat) (data : EventData (DeltaData δ))

/-- One action. A timer fires only while armed, and events are delivered only
at a source that is not closed; otherwise nothing happens. -/
def step {δ : Type} (env : Collaborators δ) (a : App) : Action δ → App
  | .connect => connect a
  | .disconnect => disconnect a
  | .keepAlive => keepAlive a
  | .toggleCluster clusterId => toggleCluster env a clusterId
  | .timerFires timer =>
    if timer ∈ a.pendingTimers then
      connect { a with pendingTimers := a.pendingTimers.filter (fun u => u != timer) }
    else a
  | .error source closed =>
    if source ∈ a.openSources then
      onerror
        (if closed then { a with openSources := a.openSources.filter (fun s => s != source) }
         else a)
    else a
  | .clusterupdate source data =>
    if source ∈ a.openSources then settle (onClusterupdate env a data) else a
  | .clusterdelta source data =>
    if source ∈ a.openSources then settle (onClusterdelta env a data) else a

/-- The state after a sequence of actions. -/
def run {δ : Type} (env : Collaborators δ) (a : App) (actions : List (Action δ)) : App :=
  actions.foldl (step env) a

/-- At most one open EventSource and at most one armed keep-alive timer, and
the fields `eventSource` and `keepAliveTimer` hold them. -/
def AtMostOne (a : App) : Prop :=
  a.openSources.length ≤ 1 ∧ a.pendingTimers.length ≤ 1 ∧
  (∀ es ∈ a.openSources, a.eventSource = some es) ∧
  (∀ t ∈ a.pendingTimers, a.keepAliveTimer = some t)

/-! ## State store: events and reference models -/

/-- A decoded event for the state store: a full snapshot, or a delta document
`delta` for the cluster `cluster_id`. -/
inductive StoreEvent (δ : Type) where
  | snapshot (s : ClusterSnapshot)
  | delta (cluster_id : String) (delta : δ)

/-- Delivery of a decoded event to the listener registered for it. -/
def deliver {δ : Type} (env : Collaborators δ) (a : App) : StoreEvent δ → App
  | .snapshot s => settle (onClusterupdate env a (.wellFormed s))
  | .delta c d => settle (onClusterdelta env a (.wellFormed ⟨c, some d⟩))

/-- The reference model in the words of the specification: a snapshot `s`
gives `store[s.id] := s`; a delta `(c, d)` leaves the store alone when `c` is
not stored and otherwise gives `store[c] := patch(clone(store[c]), d)`. -/
def referenceStep {δ : Type} (patch : ClusterSnapshot → δ → Option ClusterSnapshot)
    (store : List (String × ClusterSnapshot)) : StoreEvent δ → List (String × ClusterSnapshot)
  | .snapshot s => Map_set store s.id s
  | .delta c d =>
    match Map_get store c with
    | none => store
    | some base =>
      match patch base d with
      | none => store
      | some patched => Map_set store c patched

/-- The store model the listeners follow: as `referenceStep`, except that the
patched snapshot is stored under its own `id`. -/
def storeStep {δ : Type} (patch : ClusterSnapshot → δ → Option ClusterSnapshot)
    (store : List (String × ClusterSnapshot)) : StoreEvent δ → List (String × ClusterSnapshot)
  | .snapshot s => Map_set store s.id s
  | .delta c d =>
    match Map_get store c with
    | none => store
    | some base =>
      match patch base d with
      | none => store
      | some patched => Map_set store patched.id patched

/-- Every stored snapshot sits under its own id. -/
def KeyedById (store : List (String × ClusterSnapshot)) : Prop :=
  ∀ kc ∈ store, kc.2.id = kc.1

/-! ## Sample collaborators and inputs -/

/-- A small delta language for examples: replace the value of the key `id`
(the JSON-delta stanza `[["id"], value]`) or of the key `unassigned_pods`. -/
inductive SampleDelta where
  | setId (id : String)
  | setUnassignedPods (pods : List (String × PodSnapshot))
  deriving DecidableEq, Repr

/-- Sample collaborators: `patch` applies a `SampleDelta`, `draw` registers the
keys of the pods of the drawn cluster in `ALL_PODS`, every component is 100
units high. -/
def sampleEnv : Collaborators SampleDelta where
  patch := fun cluster d =>
    match d with
    | .setId id => some { cluster with id := id }
    | .setUnassignedPods pods => some { cluster with unassigned_pods := pods }
  draw := fun cluster registry =>
    (cluster.nodes.flatMap (fun node => node.2.pods.map (fun pod => podKey cluster pod.2)) ++
      cluster.unassigned_pods.map (fun pod => podKey cluster pod.2)).foldl Set_add registry
  height := fun _ => 100

/-- Sample collaborators whose `patch` rejects a change of `id`. -/
def sampleEnvKeepId : Collaborators SampleDelta where
  patch := fun cluster d =>
    match d with
    | .setId _ => none
    | .setUnassignedPods pods => some { cluster with unassigned_pods := pods }
  draw := sampleEnv.draw
  height := sampleEnv.height

/-- A snapshot with the given id and one unassigned pod `default/web`. -/
def sampleCluster (id : String) : ClusterSnapshot where
  id := id
  nodes := []
  unassigned_pods := [("default/web", ⟨"default", "web"⟩)]

/-- A run that ends with the error counter at `2` and a fresh connection open:
connect, one inbound event, two transport errors, then the keep-alive timer. -/
def stalledApp : App :=
  run sampleEnv (App.constructor "")
    [.connect, .clusterupdate 0 (.wellFormed (sampleCluster "c1")),
     .error 0 false, .error 3 false, .timerFires 4]

/-- A snapshot of `c1` with ten unassigned pods `default/p0` to `default/p9`. -/
def tenPodsCluster : ClusterSnapshot where
  id := "c1"
  nodes := []
  unassigned_pods :=
    ["p0", "p1", "p2", "p3", "p4", "p5", "p6", "p7", "p8", "p9"].map
      (fun n => ("default/" ++ n, ⟨"default", n⟩))

/-- The state in which the listener for `clusterupdate` calls `update` when,
after a first snapshot of `c1` with ten pods, a snapshot of `c1` arrives in
which these ten pods are gone and the pod `default/web` is new. -/
def busyApp : App :=
  { run sampleEnv (App.constructor "") [.connect, .clusterupdate 0 (.wellFormed tenPodsCluster)]
    with clusters := [("c1", sampleCluster "c1")] }

/-- The pod `pod` is a pod of the snapshot `c`: in `pods` of one of its nodes,
or in `unassigned_pods`. -/
def HasPod (c : ClusterSnapshot) (pod : PodSnapshot) : Prop :=
  (∃ node ∈ c.nodes, ∃ entry ∈ node.2.pods, entry.2 = pod) ∨
  (∃ entry ∈ c.unassigned_pods, entry.2 = pod)

/-- The state after snapshots of `a`, `z` and `constructor` on a page without
fragment. -/
def inheritedIdApp : App :=
  run sampleEnv (App.constructor "")
    [.connect, .clusterupdate 0 (.wellFormed (sampleCluster "a")),
     .clusterupdate 0 (.wellFormed (sampleCluster "z")),
     .clusterupdate 0 (.wellFormed (sampleCluster "constructor"))]

/-- The cluster is selected: `selectedClusters` is empty or has its id. -/
def isSelected (selectedClusters : List String) (cluster : ClusterSnapshot) : Bool :=
  selectedClusters.length == 0 || Set_has selectedClusters cluster.id

/-- The variables the rebuild loop of `update` starts with, `registry` being
the keys the deletion loop left in `ALL_PODS`. -/
def startRebuild (a : App) (registry : List String) : Rebuild where
  children := a.children
  ALL_PODS := registry
  y := 0
  clusterIds := []
  layout := []
  threw := false

/-- The contract of `Cluster.draw()` towards the registry `ALL_PODS`: drawing a
cluster registers the keys of its pods and leaves the other keys alone. -/
def RegistersPods {δ : Type} (env : Collaborators δ) : Prop :=
  ∀ (c : ClusterSnapshot) (registry : List String) (k : String),
    k ∈ env.draw c registry ↔ k ∈ registry ∨ ∃ pod, HasPod c pod ∧ podKey c pod = k

/-- The key `k` is the key of a pod of a stored snapshot that is selected. -/
def SelectedKey (a : App) (k : String) : Prop :=
  ∃ e ∈ a.clusters, isSelected a.selectedClusters e.2 = true ∧
    ∃ pod, HasPod e.2 pod ∧ podKey e.2 pod = k

/-- A run in which a stored cluster is never drawn: the stream without filter
delivers the cluster `a,b`, the user selects it, the transport is reopened
with `?cluster_ids=a,b`, a comma-joined list that names the clusters `a` and
`b`, and a snapshot of `a` arrives on it. -/
def commaActions : List (Action SampleDelta) :=
  [.connect, .clusterupdate 0 (.wellFormed (sampleCluster "a,b")), .toggleCluster "a,b",
   .clusterupdate 3 (.wellFormed (sampleCluster "a"))]

/-- The state after snapshots of `c1` and `c2` on a page without fragment
and a click that selects `c1`: both snapshots are stored and both clusters
have been drawn, and only `c1` is selected. -/
def toggledApp : App :=
  run sampleEnv (App.constructor "")
    [.connect, .clusterupdate 0 (.wellFormed (sampleCluster "c1")),
     .clusterupdate 0 (.wellFormed (sampleCluster "c2")), .toggleCluster "c1"]

/-- The state after snapshots of `c1`, `c2` and `c3` on a page without
fragment: all three clusters are shown. -/
def threeShownApp : App :=
  run sampleEnv (App.constructor "")
    [.connect, .clusterupdate 0 (.wellFormed (sampleCluster "c1")),
     .clusterupdate 0 (.wellFormed (sampleCluster "c2")),
     .clusterupdate 0 (.wellFormed (sampleCluster "c3"))]

/-- No character of the id is a comma or sorts before the comma. -/
def SafeId (id : String) : Prop := ∀ c ∈ id.data, 44 < c.toNat

/-- What holds of the rebuild loop of `update` throughout: the positions
given so far increase strictly and lie below the next position `y`. -/
def LayoutInv (r : Rebuild) : Prop :=
  (r.layout.map (fun e => e.2)).Pairwise (fun y₁ y₂ => y₁ < y₂) ∧ ∀ e ∈ r.layout, e.2 < r.y

/-- Every key of `seenPods` is registered in `ALL_PODS`. -/
def SeenRegistered (a : App) : Prop := ∀ k ∈ a.seenPods, k ∈ a.ALL_PODS

/-- No component shows a cluster whose id names an inherited member. -/
def PlainChildren (children : List ClusterBox) : Prop :=
  ∀ box ∈ children, inheritedMember box.cluster.id = false

/-! ## URL fragment: predicates for the round trip -/

/-- The text has neither `;` nor `=`, the two separators of the fragment. -/
def Clean (s : String) : Prop := ';' ∉ s.data ∧ '=' ∉ s.data

/-- A cluster id that survives the fragment: not empty, and free of `,`, `;`
and `=`. -/
def CleanId (id : String) : Prop := id ≠ "" ∧ ',' ∉ id.data ∧ Clean id

/-- The text `key + '=' + value` pushed to `pairs` by `changeLocationHash`. -/
def encodePair (kv : String × String) : String := kv.1 ++ "=" ++ kv.2

/-- The order of default `sort()` on the texts of two pairs. -/
def pairLe (a b : String × String) : Prop := jsLe (encodePair a) (encodePair b)

instance pairLe_decidable : DecidableRel pairLe := fun a b =>
  inferInstanceAs (Decidable (jsLe (encodePair a) (encodePair b)))

/-- The fragment `changeLocationHash` writes for the entries `params`. -/
def writeHash (params : List (String × String)) : String :=
  "#" ++ join ";" (((params.filter (fun kv => kv.2 != "")).map encodePair).insertionSort jsLe)

/-- The keys of the map are distinct and all its texts are `Clean`. -/
def CleanMap (m : List (String × String)) : Prop :=
  (m.map (fun kv => kv.1)).Nodup ∧ ∀ kv ∈ m, Clean kv.1 ∧ Clean kv.2

/-! ## Invariants of the two pod loops of `update` -/

/-- The variables `update` starts its pod loops with. -/
def startPass (a : App) : Pass where
  ALL_PODS := a.ALL_PODS
  seenPods := a.seenPods
  changes := 0
  timeouts := []
  destroyed := []
  deleted := []
  created := []

/-- What holds of the shared variables throughout the deletion loop. -/
def DeletionInv (p : Pass) : Prop :=
  p.changes = p.deleted.length ∧ p.created = [] ∧
  p.timeouts.length = min p.changes 10 ∧
  p.destroyed.length = p.changes - min p.changes 10 ∧
  (∀ t ∈ p.timeouts, t.kind = Transition.deletion ∧
    ∃ k, k < p.changes ∧ k ≤ 9 ∧ t.delay = 100 * k) ∧
  (p.timeouts.map (fun t => t.delay)).Pairwise (fun x y => x < y)

/-- What holds of the shared variables throughout the creation loop, `p₁`
being their value when the loop starts. -/
def CreationInv (firstTime : Bool) (p₁ p : Pass) : Prop :=
  p.changes = p₁.changes + p.created.length ∧ p.deleted = p₁.deleted ∧
  p.destroyed = p₁.destroyed ∧
  ∃ added : List Timeout, p.timeouts = p₁.timeouts ++ added ∧
    added.length = (if firstTime then 0 else min p.changes 10 - min p₁.changes 10) ∧
    (∀ t ∈ added, t.kind = Transition.creation ∧
      ∃ k, p₁.changes ≤ k ∧ k < p.changes ∧ k ≤ 9 ∧ t.delay = 100 * k) ∧
    (added.map (fun t => t.delay)).Pairwise (fun x y => x < y)

/-! ## Connection invariant -/

theorem keepAlive_atMostOne (a : App) (h : AtMostOne a) : AtMostOne (keepAlive a) := by
  obtain ⟨h1, h2, h3, h4⟩ := h
  have hp : (match a.keepAliveTimer with
      | some t => a.pendingTimers.filter (fun u => u != t)
      | none => a.pendingTimers) = [] := by
    cases hk : a.keepAliveTimer with
    | none =>
      cases hl : a.pendingTimers with
      | nil => rfl
      | cons t ts =>
        have := h4 t (by simp [hl])
        simp [hk] at this
    | some t =>
      simp only [List.filter_eq_nil_iff]
      intro u hu
      have := h4 u hu
      simp [hk] at this
      simp [this]
  unfold keepAlive AtMostOne
  cases hk : a.keepAliveTimer with
  | none =>
    simp only [hk] at hp
    simp [hk, hp, h1]
    exact h3
  | some t =>
    simp only [hk] at hp
    simp [hk, hp, h1]
    exact h3

theorem disconnect_atMostOne (a : App) (h : AtMostOne a) : AtMostOne (disconnect a) := by
  obtain ⟨h1, h2, h3, h4⟩ := h
  unfold disconnect AtMostOne
  cases he : a.eventSource with
  | none =>
    simp only [he]
    exact ⟨h1, h2, by simpa [he] using h3, h4⟩
  | some es =>
    have hf : a.openSources.filter (fun s => s != es) = [] := by
      simp only [List.filter_eq_nil_iff]
      intro u hu
      have := h3 u hu
      simp [he] at this
      simp [this]
    simp [he, hf, h2]
    exact h4

theorem disconnect_openSources (a : App) (h : AtMostOne a) :
    (disconnect a).openSources = [] := by
  obtain ⟨h1, h2, h3, h4⟩ := h
  unfold disconnect
  cases he : a.eventSource with
  | none =>
    cases hl : a.openSources with
    | nil => simp [hl]
    | cons s ss =>
      have := h3 s (by simp [hl])
      simp [he] at this
  | some es =>
    simp only [List.filter_eq_nil_iff]
    intro u hu
    have := h3 u hu
    simp [he] at this
    simp [this]

theorem connect_atMostOne (a : App) (h : AtMostOne a) : AtMostOne (connect a) := by
  unfold connect
  apply keepAlive_atMostOne
  have hd := disconnect_atMostOne { a with calls := a.calls ++ [Call.connect] } h
  have ho := disconnect_openSources { a with calls := a.calls ++ [Call.connect] } h
  obtain ⟨h1, h2, h3, h4⟩ := hd
  refine ⟨?_, h2, ?_, h4⟩
  · simp [ho]
  · simp [ho]

theorem update_connection {δ : Type} (env : Collaborators δ) (a : App) :
    (update env a).openSources = a.openSources ∧
    (update env a).pendingTimers = a.pendingTimers ∧
    (update env a).eventSource = a.eventSource ∧
    (update env a).keepAliveTimer = a.keepAliveTimer ∧
    (update env a)._errors = a._errors ∧
    (update env a).clusters = a.clusters := by
  unfold update updatePass
  dsimp only
  split <;> simp [filter]

theorem update_atMostOne {δ : Type} (env : Collaborators δ) (a : App) (h : AtMostOne a) :
    AtMostOne (update env a) := by
  obtain ⟨e1, e2, e3, e4, _, _⟩ := update_connection env a
  unfold AtMostOne
  rw [e1, e2, e3, e4]
  exact h

theorem onerror_atMostOne (a : App) (h : AtMostOne a) : AtMostOne (onerror a) := by
  unfold onerror
  dsimp only
  split
  · exact connect_atMostOne _ h
  · exact disconnect_atMostOne _ h

theorem toggleCluster_atMostOne {δ : Type} (env : Collaborators δ) (a : App)
    (clusterId : String) (h : AtMostOne a) : AtMostOne (toggleCluster env a clusterId) := by
  unfold toggleCluster
  dsimp only
  apply update_atMostOne
  apply connect_atMostOne
  split <;> exact h

theorem settle_ite (c : Bool) (x : App) :
    settle (if c = true then Except.error x else Except.ok x) = x := by
  cases c <;> rfl

theorem onClusterupdate_atMostOne {δ : Type} (env : Collaborators δ) (a : App)
    (data : EventData ClusterSnapshot) (h : AtMostOne a) :
    AtMostOne (settle (onClusterupdate env a data)) := by
  have hk : AtMostOne (keepAlive { a with _errors := .num 0 }) := keepAlive_atMostOne _ h
  unfold onClusterupdate
  cases JSON_parse data with
  | none => exact hk
  | some cluster =>
    simp only [settle_ite]
    exact update_atMostOne env _ hk

theorem onClusterdelta_atMostOne {δ : Type} (env : Collaborators δ) (a : App)
    (data : EventData (DeltaData δ)) (h : AtMostOne a) :
    AtMostOne (settle (onClusterdelta env a data)) := by
  have hk : AtMostOne (keepAlive { a with _errors := .num 0 }) := keepAlive_atMostOne _ h
  unfold onClusterdelta
  cases JSON_parse data with
  | none => exact hk
  | some d =>
    simp only
    split
    · split
      · exact hk
      · simp only [settle_ite]
        exact update_atMostOne env _ hk
    · exact hk

theorem filter_ne_atMostOne (l : List Nat) (x : Nat) (h : l.length ≤ 1) :
    (l.filter (fun u => u != x)).length ≤ 1 :=
  le_trans (List.length_filter_le _ _) h

theorem step_atMostOne {δ : Type} (env : Collaborators δ) (a : App) (act : Action δ)
    (h : AtMostOne a) : AtMostOne (step env a act) := by
  cases act with
  | connect => exact connect_atMostOne a h
  | disconnect => exact disconnect_atMostOne a h
  | keepAlive => exact keepAlive_atMostOne a h
  | toggleCluster clusterId => exact toggleCluster_atMostOne env a clusterId h
  | timerFires timer =>
    simp only [step]
    split
    · apply connect_atMostOne
      obtain ⟨h1, h2, h3, h4⟩ := h
      exact ⟨h1, filter_ne_atMostOne _ _ h2, h3, fun t ht => h4 t (List.mem_of_mem_filter ht)⟩
    · exact h
  | error source closed =>
    simp only [step]
    split
    · apply onerror_atMostOne
      cases closed with
      | false => exact h
      | true =>
        obtain ⟨h1, h2, h3, h4⟩ := h
        exact ⟨filter_ne_atMostOne _ _ h1, h2,
          fun t ht => h3 t (List.mem_of_mem_filter ht), h4⟩
    · exact h
  | clusterupdate source data =>
    simp only [step]
    split
    · exact onClusterupdate_atMostOne env a data h
    · exact h
  | clusterdelta source data =>
    simp only [step]
    split
    · exact onClusterdelta_atMostOne env a data h
    · exact h

theorem run_atMostOne {δ : Type} (env : Collaborators δ) (actions : List (Action δ)) :
    ∀ a : App, AtMostOne a → AtMostOne (run env a actions) := by
  induction actions with
  | nil => intro a h; exact h
  | cons act rest ih =>
    intro a h
    exact ih (step env a act) (step_atMostOne env a act h)

/-- C8: every state the application reaches from its constructor, under any
sequence of method calls, keep-alive timer firings, transport errors and
inbound events, has at most one open EventSource and at most one armed
keep-alive timer, and `eventSource` and `keepAliveTimer` refer to them. -/
theorem connection_atMostOne {δ : Type} (env : Collaborators δ) (hash : String)
    (actions : List (Action δ)) :
    ((run env (App.constructor hash) actions).openSources.length ≤ 1 ∧
     (run env (App.constructor hash) actions).pendingTimers.length ≤ 1) ∧
    (∀ es ∈ (run env (App.constructor hash) actions).openSources,
      (run env (App.constructor hash) actions).eventSource = some es) ∧
    (∀ t ∈ (run env (App.constructor hash) actions).pendingTimers,
      (run env (App.constructor hash) actions).keepAliveTimer = some t) := by
  have h0 : AtMostOne (App.constructor hash) := by
    simp [AtMostOne, App.constructor]
  obtain ⟨h1, h2, h3, h4⟩ := run_atMostOne env actions _ h0
  exact ⟨⟨h1, h2⟩, h3, h4⟩

/-! ## Reconnect policy -/

theorem connect_errors (a : App) : (connect a)._errors = a._errors := by
  unfold connect keepAlive disconnect
  cases a.eventSource <;> cases a.keepAliveTimer <;> rfl

theorem connect_calls (a : App) :
    (connect a).calls = a.calls ++ [Call.connect, Call.disconnect, Call.keepAlive] := by
  unfold connect keepAlive disconnect
  cases a.eventSource <;> cases a.keepAliveTimer <;> simp

theorem disconnect_calls (a : App) : (disconnect a).calls = a.calls ++ [Call.disconnect] := by
  unfold disconnect
  cases a.eventSource <;> simp

theorem disconnect_eventSource (a : App) : (disconnect a).eventSource = none := by
  unfold disconnect
  cases h : a.eventSource <;> simp [h]

theorem disconnect_errors (a : App) : (disconnect a)._errors = a._errors := by
  unfold disconnect
  cases a.eventSource <;> rfl

theorem onerror_zero (a : App) (h : a._errors = .num 0) :
    onerror a = connect { a with _errors := .num 1 } := by
  simp [onerror, h, JSNumber.incr, JSNumber.le1]

theorem onerror_succ (a : App) (n : Nat) (h : a._errors = .num (n + 1))
    (hn : n + 1 < 2 ^ 53) :
    onerror a = disconnect { a with _errors := .num (n + 2) } := by
  have hn2 : n + 1 < 9007199254740992 := by simpa using hn
  simp [onerror, h, JSNumber.incr, JSNumber.le1, hn2]

theorem onerror_not_a_number (a : App) (h : a._errors = .undefined ∨ a._errors = .NaN) :
    onerror a = disconnect { a with _errors := .NaN } := by
  rcases h with h | h <;> simp [onerror, h, JSNumber.incr, JSNumber.le1]

/-- The reconnect policy from a state whose counter is `0`, as every state is
after a `clusterupdate` or `clusterdelta` event: of three errors in a row the
first calls `connect`, the second and third call `disconnect` only. -/
theorem reconnect_policy_after_success (a : App) (h : a._errors = .num 0) :
    (onerror a).calls = a.calls ++ [Call.connect, Call.disconnect, Call.keepAlive] ∧
    (onerror (onerror a)).calls = (onerror a).calls ++ [Call.disconnect] ∧
    (onerror (onerror (onerror a))).calls = (onerror (onerror a)).calls ++ [Call.disconnect] := by
  have e1 := onerror_zero a h
  have h1 : (onerror a)._errors = .num (0 + 1) := by rw [e1, connect_errors]
  have e2 := onerror_succ (onerror a) 0 h1 (by norm_num)
  have h2 : (onerror (onerror a))._errors = .num (1 + 1) := by rw [e2, disconnect_errors]
  have e3 := onerror_succ (onerror (onerror a)) 1 h2 (by norm_num)
  refine ⟨?_, ?_, ?_⟩
  · rw [e1, connect_calls]
  · rw [e2, disconnect_calls]
  · rw [e3, disconnect_calls]

/-- C1, on a freshly constructed `App` on which `connect()` has just been
called: the constructor leaves `_errors` unassigned, so the first error event
makes the counter `NaN`, the test `_errors <= 1` fails and the handler calls
`disconnect()` only. No reconnect is made: after three errors the only call
of `connect` on record is the initial one. -/
theorem fresh_app_first_error_no_reconnect (hash : String) :
    (onerror (connect (App.constructor hash))).calls =
      (connect (App.constructor hash)).calls ++ [Call.disconnect] ∧
    (onerror (connect (App.constructor hash)))._errors = JSNumber.NaN ∧
    (onerror (connect (App.constructor hash))).eventSource = none ∧
    (onerror (onerror (onerror (connect (App.constructor hash))))).calls.count Call.connect
      = 1 := by
  have h0 : (connect (App.constructor hash))._errors = .undefined := by
    rw [connect_errors]; rfl
  have e1 := onerror_not_a_number (connect (App.constructor hash)) (Or.inl h0)
  have h1 : (onerror (connect (App.constructor hash)))._errors = .NaN := by
    rw [e1, disconnect_errors]
  have e2 := onerror_not_a_number (onerror (connect (App.constructor hash))) (Or.inr h1)
  have h2 : (onerror (onerror (connect (App.constructor hash))))._errors = .NaN := by
    rw [e2, disconnect_errors]
  have e3 := onerror_not_a_number (onerror (onerror (connect (App.constructor hash))))
    (Or.inr h2)
  refine ⟨?_, h1, ?_, ?_⟩
  · rw [e1, disconnect_calls]
  · rw [e1, disconnect_eventSource]
  · rw [e3, disconnect_calls]
    simp only
    rw [e2, disconnect_calls]
    simp only
    rw [e1, disconnect_calls]
    simp only
    rw [connect_calls]
    simp [App.constructor, List.count_cons]

/-! ## Decode errors -/

theorem keepAlive_fields (a : App) :
    (keepAlive a)._errors = a._errors ∧ (keepAlive a).eventSource = a.eventSource ∧
    (keepAlive a).clusters = a.clusters ∧ (keepAlive a).openSources = a.openSources ∧
    (keepAlive a).calls = a.calls ++ [Call.keepAlive] ∧
    (keepAlive a).keepAliveTimer = some a.nextHandle ∧
    (keepAlive a).pendingTimers ≠ [] ∧
    (keepAlive a).seenPods = a.seenPods ∧ (keepAlive a).children = a.children ∧
    (keepAlive a).ALL_PODS = a.ALL_PODS := by
  unfold keepAlive
  cases a.keepAliveTimer <;> simp

/-- C6, counterexample: in `stalledApp` the counter is `2`; a malformed
`clusterupdate` event leaves it at `0`. -/
theorem decode_error_resets_counter :
    stalledApp._errors = JSNumber.num 2 ∧ stalledApp.openSources = [5] ∧
    (settle (onClusterupdate sampleEnv stalledApp (.malformed "\x7b")))._errors
      ≠ stalledApp._errors := by
  decide

/-- C6, amended: on a malformed `clusterupdate` or `clusterdelta` event the
listener throws at `JSON.parse`; by then it has set `_errors` to `0` and
re-armed the keep-alive timer. The transport handle, the open sources and
`clusters` are unchanged and no `update` runs. -/
theorem decode_error_effect {δ : Type} (env : Collaborators δ) (a : App) (text : String) :
    (∃ b, onClusterupdate env a (.malformed text) = .error b ∧
      onClusterdelta env a (.malformed text) = .error b ∧
      b._errors = JSNumber.num 0 ∧
      b.keepAliveTimer = some a.nextHandle ∧
      b.eventSource = a.eventSource ∧ b.openSources = a.openSources ∧
      b.clusters = a.clusters ∧ b.seenPods = a.seenPods ∧ b.children = a.children ∧
      b.calls = a.calls ++ [Call.keepAlive]) := by
  refine ⟨keepAlive { a with _errors := .num 0 }, rfl, rfl, ?_⟩
  obtain ⟨h1, h2, h3, h4, h5, h6, _, h8, h9, _⟩ := keepAlive_fields { a with _errors := .num 0 }
  exact ⟨h1, h6, h2, h4, h3, h8, h9, h5⟩

/-! ## State store -/

theorem onClusterupdate_clusters {δ : Type} (env : Collaborators δ) (a : App)
    (s : ClusterSnapshot) :
    (settle (onClusterupdate env a (.wellFormed s))).clusters = Map_set a.clusters s.id s := by
  simp only [onClusterupdate, JSON_parse, settle_ite]
  rw [(update_connection env _).2.2.2.2.2]
  simp only
  rw [(keepAlive_fields _).2.2.1]

theorem onClusterdelta_clusters {δ : Type} (env : Collaborators δ) (a : App)
    (c : String) (d : δ) :
    (settle (onClusterdelta env a (.wellFormed ⟨c, some d⟩))).clusters =
      storeStep env.patch a.clusters (.delta c d) := by
  have hk : (keepAlive { a with _errors := .num 0 }).clusters = a.clusters :=
    (keepAlive_fields _).2.2.1
  simp only [onClusterdelta, JSON_parse, storeStep, hk]
  cases hg : Map_get a.clusters c with
  | none => simp [settle, hk]
  | some base =>
    simp only
    cases hp : env.patch base d with
    | none => simp [settle, hk]
    | some patched =>
      simp only [settle_ite]
      rw [(update_connection env _).2.2.2.2.2]

theorem deliver_clusters {δ : Type} (env : Collaborators δ) (a : App) (e : StoreEvent δ) :
    (deliver env a e).clusters = storeStep env.patch a.clusters e := by
  cases e with
  | snapshot s => exact onClusterupdate_clusters env a s
  | delta c d => exact onClusterdelta_clusters env a c d

theorem Map_get_set_ne {β : Type} (m : List (String × β)) (k key : String) (v : β)
    (h : k ≠ key) : Map_get (Map_set m key v) k = Map_get m k := by
  induction m with
  | nil => simp [Map_set, Map_get, Ne.symm h]
  | cons kv rest ih =>
    obtain ⟨k', v'⟩ := kv
    simp only [Map_set]
    by_cases hk : k' = key
    · subst hk
      simp [Map_get, Ne.symm h]
    · simp only [hk, if_false, Map_get]
      rw [ih]

theorem Map_get_set_eq {β : Type} (m : List (String × β)) (key : String) (v : β) :
    Map_get (Map_set m key v) key = some v := by
  induction m with
  | nil => simp [Map_set, Map_get]
  | cons kv rest ih =>
    obtain ⟨k', v'⟩ := kv
    simp only [Map_set]
    by_cases hk : k' = key
    · subst hk
      simp [Map_get]
    · simp [hk, Map_get, ih]

theorem Map_set_keyed (store : List (String × ClusterSnapshot)) (s : ClusterSnapshot)
    (h : KeyedById store) : KeyedById (Map_set store s.id s) := by
  induction store with
  | nil =>
    intro kc hkc
    simp [Map_set] at hkc
    subst hkc
    rfl
  | cons kv rest ih =>
    obtain ⟨k', v'⟩ := kv
    have hrest : KeyedById rest := fun kc hkc => h kc (List.mem_cons_of_mem _ hkc)
    intro kc hkc
    simp only [Map_set] at hkc
    by_cases hk : k' = s.id
    · simp only [hk, if_true, List.mem_cons] at hkc
      rcases hkc with hkc | hkc
      · subst hkc; rfl
      · exact hrest kc hkc
    · simp only [hk, if_false, List.mem_cons] at hkc
      rcases hkc with hkc | hkc
      · subst hkc; exact h (k', v') (List.mem_cons_self _ _)
      · exact ih hrest kc hkc

theorem Map_get_keyed (store : List (String × ClusterSnapshot)) (c : String)
    (base : ClusterSnapshot) (h : KeyedById store) (hg : Map_get store c = some base) :
    base.id = c := by
  induction store with
  | nil => simp [Map_get] at hg
  | cons kv rest ih =>
    obtain ⟨k', v'⟩ := kv
    simp only [Map_get] at hg
    by_cases hk : k' = c
    · simp only [hk, if_true, Option.some.injEq] at hg
      have := h (k', v') (List.mem_cons_self _ _)
      simp only at this
      rw [← hg, this, hk]
    · simp only [hk, if_false] at hg
      exact ih (fun kc hkc => h kc (List.mem_cons_of_mem _ hkc)) hg

theorem storeStep_eq_reference {δ : Type}
    (patch : ClusterSnapshot → δ → Option ClusterSnapshot)
    (hid : ∀ base d patched, patch base d = some patched → patched.id = base.id)
    (store : List (String × ClusterSnapshot)) (h : KeyedById store) (e : StoreEvent δ) :
    storeStep patch store e = referenceStep patch store e ∧
    KeyedById (storeStep patch store e) := by
  cases e with
  | snapshot s => exact ⟨rfl, Map_set_keyed store s h⟩
  | delta c d =>
    simp only [storeStep, referenceStep]
    cases hg : Map_get store c with
    | none => exact ⟨rfl, h⟩
    | some base =>
      simp only
      cases hp : patch base d with
      | none => exact ⟨rfl, h⟩
      | some patched =>
        simp only
        have e1 : patched.id = c := by
          rw [hid base d patched hp]; exact Map_get_keyed store c base h hg
        refine ⟨by rw [e1], Map_set_keyed store patched h⟩

theorem foldl_storeStep_eq_reference {δ : Type}
    (patch : ClusterSnapshot → δ → Option ClusterSnapshot)
    (hid : ∀ base d patched, patch base d = some patched → patched.id = base.id)
    (events : List (StoreEvent δ)) :
    ∀ store : List (String × ClusterSnapshot), KeyedById store →
      events.foldl (storeStep patch) store = events.foldl (referenceStep patch) store := by
  induction events with
  | nil => intro store _; rfl
  | cons e rest ih =>
    intro store h
    obtain ⟨e1, e2⟩ := storeStep_eq_reference patch hid store h e
    simp only [List.foldl_cons]
    rw [← e1]
    exact ih _ e2

theorem foldl_deliver_clusters {δ : Type} (env : Collaborators δ)
    (events : List (StoreEvent δ)) :
    ∀ a : App, (events.foldl (deliver env) a).clusters =
      events.foldl (storeStep env.patch) a.clusters := by
  induction events with
  | nil => intro a; rfl
  | cons e rest ih =>
    intro a
    simp only [List.foldl_cons]
    rw [ih, deliver_clusters]

/-- C2, counterexample: with the snapshot of `c1` stored, a delta for `c1`
that replaces the value of `id` by `c2` is applied without error; the
listeners then hold two entries, the old one under `c1` and the patched one
under `c2`, while the reference model of the specification holds the patched
snapshot under `c1`. -/
theorem store_differs_from_reference :
    ([StoreEvent.snapshot (sampleCluster "c1"),
        StoreEvent.delta "c1" (SampleDelta.setId "c2")].foldl
        (deliver sampleEnv) (App.constructor "")).clusters
      = [("c1", sampleCluster "c1"), ("c2", sampleCluster "c2")] ∧
    [StoreEvent.snapshot (sampleCluster "c1"),
        StoreEvent.delta "c1" (SampleDelta.setId "c2")].foldl
        (referenceStep sampleEnv.patch) (App.constructor "").clusters
      = [("c1", sampleCluster "c2")] := by
  decide

theorem onClusterdelta_no_base {δ : Type} (env : Collaborators δ) (a : App)
    (c : String) (d : Option δ) (h : Map_get a.clusters c = none ∨ d = none) :
    settle (onClusterdelta env a (.wellFormed ⟨c, d⟩)) = keepAlive { a with _errors := .num 0 } := by
  have hk : (keepAlive { a with _errors := .num 0 }).clusters = a.clusters :=
    (keepAlive_fields _).2.2.1
  simp only [onClusterdelta, JSON_parse, hk]
  rcases h with h | h
  · simp [h, settle]
  · subst h
    cases Map_get a.clusters c <;> simp [settle]

/-- C2, amended: for every sequence of decoded snapshot and delta events, the
map `clusters` the listeners produce equals the result of `storeStep`, the
reference model in which the patched snapshot is stored under its own `id`;
when the patch function never changes `id` and every stored snapshot sits
under its id, that is the reference model of the specification. A delta for
an id with no stored snapshot, or an event whose `delta` is missing, leaves
`clusters`, `seenPods` and the components unchanged and runs no `update`; a
delta that is applied changes no entry other than the one under the patched
snapshot's id. -/
theorem store_refinement {δ : Type} (env : Collaborators δ) (a : App)
    (events : List (StoreEvent δ)) :
    (events.foldl (deliver env) a).clusters = events.foldl (storeStep env.patch) a.clusters ∧
    ((∀ base d patched, env.patch base d = some patched → patched.id = base.id) →
      KeyedById a.clusters →
      (events.foldl (deliver env) a).clusters =
        events.foldl (referenceStep env.patch) a.clusters) ∧
    (∀ c d, Map_get a.clusters c = none ∨ d = none →
      (settle (onClusterdelta env a (.wellFormed ⟨c, d⟩))).clusters = a.clusters ∧
      (settle (onClusterdelta env a (.wellFormed ⟨c, d⟩))).seenPods = a.seenPods ∧
      (settle (onClusterdelta env a (.wellFormed ⟨c, d⟩))).children = a.children ∧
      (settle (onClusterdelta env a (.wellFormed ⟨c, d⟩))).calls = a.calls ++ [Call.keepAlive]) ∧
    (∀ c d base patched k, Map_get a.clusters c = some base →
      env.patch base d = some patched → k ≠ patched.id →
      Map_get (deliver env a (.delta c d)).clusters k = Map_get a.clusters k) := by
  refine ⟨foldl_deliver_clusters env events a, ?_, ?_, ?_⟩
  · intro hid hkeyed
    rw [foldl_deliver_clusters env events a]
    exact foldl_storeStep_eq_reference env.patch hid events a.clusters hkeyed
  · intro c d h
    rw [onClusterdelta_no_base env a c d h]
    obtain ⟨_, _, h3, _, h5, _, _, h8, h9, _⟩ := keepAlive_fields { a with _errors := .num 0 }
    exact ⟨h3, h8, h9, h5⟩
  · intro c d base patched k hg hp hk
    rw [deliver_clusters]
    simp only [storeStep, hg, hp]
    exact Map_get_set_ne a.clusters k patched.id patched hk

/-- C2, the amended claim at a concrete run: a snapshot of `c1` and then a
delta that empties its `unassigned_pods`. -/
theorem store_refinement_witness :
    ([StoreEvent.snapshot (sampleCluster "c1"),
        StoreEvent.delta "c1" (SampleDelta.setUnassignedPods [])].foldl
        (deliver sampleEnvKeepId) (App.constructor "")).clusters =
      [StoreEvent.snapshot (sampleCluster "c1"),
        StoreEvent.delta "c1" (SampleDelta.setUnassignedPods [])].foldl
        (referenceStep sampleEnvKeepId.patch) (App.constructor "").clusters ∧
    [StoreEvent.snapshot (sampleCluster "c1"),
        StoreEvent.delta "c1" (SampleDelta.setUnassignedPods [])].foldl
        (referenceStep sampleEnvKeepId.patch) (App.constructor "").clusters =
      [("c1", { id := "c1", nodes := [], unassigned_pods := [] })] :=
  ⟨(store_refinement sampleEnvKeepId (App.constructor "")
      [StoreEvent.snapshot (sampleCluster "c1"),
        StoreEvent.delta "c1" (SampleDelta.setUnassignedPods [])]).2.1
      (by
        intro base d patched h
        cases d with
        | setId id => simp [sampleEnvKeepId] at h
        | setUnassignedPods pods =>
          simp only [sampleEnvKeepId, Option.some.injEq] at h
          rw [← h])
      (by intro kc hkc; simp [App.constructor] at hkc),
   by decide⟩

/-! ## Animation schedule -/

theorem foldl_invariant {α β : Type} (P : β → Prop) (f : β → α → β)
    (hstep : ∀ b x, P b → P (f b x)) (l : List α) : ∀ b, P b → P (l.foldl f b) := by
  induction l with
  | nil => intro b hb; exact hb
  | cons x rest ih => intro b hb; exact ih (f b x) (hstep b x hb)

theorem foldl_invariant_mem {α β : Type} (P : β → Prop) (f : β → α → β) (l : List α) :
    (∀ b x, x ∈ l → P b → P (f b x)) → ∀ b, P b → P (l.foldl f b) := by
  induction l with
  | nil => intro _ b hb; exact hb
  | cons x rest ih =>
    intro hstep b hb
    exact ih (fun b y hy => hstep b y (List.mem_cons_of_mem _ hy)) (f b x)
      (hstep b x (List.mem_cons_self _ _) hb)

theorem deletionStep_inv (podKeys : List String) (p : Pass) (key : String)
    (h : DeletionInv p) : DeletionInv (deletionStep podKeys p key) := by
  obtain ⟨h1, h2, h3, h4, h5, h6⟩ := h
  unfold deletionStep
  by_cases hk : Set_has podKeys key = true
  · simp only [hk, Bool.not_true, Bool.false_eq_true, if_false]
    exact ⟨h1, h2, h3, h4, h5, h6⟩
  · simp only [hk, Bool.not_false, if_true]
    by_cases hc : p.changes < 10
    · simp only [hc, if_true]
      refine ⟨by simp [h1], h2, ?_, ?_, ?_, ?_⟩
      · simp only [List.length_append, List.length_singleton, h3]; omega
      · simp only [h4]; omega
      · intro t ht
        simp only [List.mem_append, List.mem_singleton] at ht
        rcases ht with ht | ht
        · obtain ⟨hkind, k, hk1, hk2, hk3⟩ := h5 t ht
          exact ⟨hkind, k, by dsimp only; omega, hk2, hk3⟩
        · subst ht
          exact ⟨rfl, p.changes, by dsimp only; omega, by omega, rfl⟩
      · simp only [List.map_append, List.map_cons, List.map_nil, List.pairwise_append,
          List.pairwise_cons, List.Pairwise.nil, List.mem_map, List.mem_singleton]
        refine ⟨h6, ⟨by simp, trivial⟩, ?_⟩
        rintro x ⟨t, ht, rfl⟩ y rfl
        obtain ⟨_, k, hk1, _, hk3⟩ := h5 t ht
        omega
    · simp only [hc, if_false]
      refine ⟨by simp [h1], h2, ?_, ?_, ?_, h6⟩
      · simp only [h3]; omega
      · simp only [List.length_append, List.length_singleton, h4]; omega
      · intro t ht
        obtain ⟨hkind, k, hk1, hk2, hk3⟩ := h5 t ht
        exact ⟨hkind, k, by dsimp only; omega, hk2, hk3⟩

theorem creationStep_inv (firstTime : Bool) (p₁ p : Pass) (key : String)
    (h : CreationInv firstTime p₁ p) : CreationInv firstTime p₁ (creationStep firstTime p key) := by
  obtain ⟨h1, h2, h3, added, h4, h5, h6, h7⟩ := h
  unfold creationStep
  by_cases hk : Set_has p.seenPods key = true
  · simp only [hk, Bool.not_true, Bool.false_eq_true, if_false]
    exact ⟨h1, h2, h3, added, h4, h5, h6, h7⟩
  · simp only [hk, Bool.not_false, if_true]
    by_cases hc : (!firstTime && decide (p.changes < 10)) = true
    · simp only [hc, if_true]
      simp only [Bool.and_eq_true, Bool.not_eq_true', decide_eq_true_eq] at hc
      obtain ⟨hf, hlt⟩ := hc
      subst hf
      refine ⟨by simp [h1]; omega, h2, h3, added ++ [⟨100 * p.changes, .creation, key⟩],
        by simp [h4], ?_, ?_, ?_⟩
      · simp only [Bool.false_eq_true, if_false] at h5 ⊢
        simp only [List.length_append, List.length_singleton, h5]; omega
      · intro t ht
        simp only [List.mem_append, List.mem_singleton] at ht
        rcases ht with ht | ht
        · obtain ⟨hkind, k, hk0, hk1, hk2, hk3⟩ := h6 t ht
          exact ⟨hkind, k, hk0, by dsimp only; omega, hk2, hk3⟩
        · subst ht
          exact ⟨rfl, p.changes, by omega, by dsimp only; omega, by omega, rfl⟩
      · simp only [List.map_append, List.map_cons, List.map_nil, List.pairwise_append,
          List.pairwise_cons, List.Pairwise.nil, List.mem_map, List.mem_singleton]
        refine ⟨h7, ⟨by simp, trivial⟩, ?_⟩
        rintro x ⟨t, ht, rfl⟩ y rfl
        obtain ⟨_, k, _, hk1, _, hk3⟩ := h6 t ht
        omega
    · simp only [hc, if_false, Bool.false_eq_true]
      refine ⟨by simp [h1]; omega, h2, h3, added, h4, ?_, ?_, h7⟩
      · simp only [h5]
        cases firstTime with
        | true => simp
        | false =>
          simp only [Bool.not_false, Bool.true_and, decide_eq_true_eq] at hc
          simp only [Bool.false_eq_true, if_false]
          omega
      · intro t ht
        obtain ⟨hkind, k, hk0, hk1, hk2, hk3⟩ := h6 t ht
        exact ⟨hkind, k, hk0, by dsimp only; omega, hk2, hk3⟩

theorem startPass_inv (a : App) : DeletionInv (startPass a) := by
  simp [DeletionInv, startPass]

theorem updatePass_afterDeletion {δ : Type} (env : Collaborators δ) (a : App) :
    (updatePass env a).2.afterDeletion =
      a.ALL_PODS.foldl (deletionStep (podKeysOf (sortedClusters a.clusters))) (startPass a) := by
  unfold updatePass
  dsimp only
  split <;> rfl

theorem updatePass_rebuilt {δ : Type} (env : Collaborators δ) (a : App) :
    (updatePass env a).2.rebuilt =
      (sortedClusters a.clusters).foldl
        (rebuildStep env a.selectedClusters (clusterComponentById a.children))
        (startRebuild a (updatePass env a).2.afterDeletion.ALL_PODS) := by
  unfold updatePass
  dsimp only
  split <;> rfl

theorem updatePass_threw {δ : Type} (env : Collaborators δ) (a : App) :
    (updatePass env a).2.threw = (updatePass env a).2.rebuilt.threw := by
  unfold updatePass
  dsimp only
  split
  · rename_i h; simp only [h]
  · rename_i h; simp only [h]

theorem updatePass_afterCreation {δ : Type} (env : Collaborators δ) (a : App) :
    (updatePass env a).2.afterCreation =
      (if (updatePass env a).2.rebuilt.threw then
        { (updatePass env a).2.afterDeletion with
          ALL_PODS := (updatePass env a).2.rebuilt.ALL_PODS }
      else
        (updatePass env a).2.rebuilt.ALL_PODS.foldl (creationStep (a.seenPods.length == 0))
          { (updatePass env a).2.afterDeletion with
            ALL_PODS := (updatePass env a).2.rebuilt.ALL_PODS }) := by
  unfold updatePass
  dsimp only
  split
  · rename_i h; simp only [h, if_true]
  · rename_i h; simp only [h, if_false, Bool.false_eq_true]

theorem afterDeletion_inv {δ : Type} (env : Collaborators δ) (a : App) :
    DeletionInv (updatePass env a).2.afterDeletion := by
  rw [updatePass_afterDeletion]
  exact foldl_invariant DeletionInv _ (fun p key hp => deletionStep_inv _ p key hp) _ _
    (startPass_inv a)

theorem afterCreation_inv {δ : Type} (env : Collaborators δ) (a : App) :
    CreationInv (a.seenPods.length == 0) (updatePass env a).2.afterDeletion
      (updatePass env a).2.afterCreation := by
  rw [updatePass_afterCreation]
  obtain ⟨_, h2, _⟩ := afterDeletion_inv env a
  have hbase : CreationInv (a.seenPods.length == 0) (updatePass env a).2.afterDeletion
      { (updatePass env a).2.afterDeletion with
        ALL_PODS := (updatePass env a).2.rebuilt.ALL_PODS } :=
    ⟨by simp [h2], rfl, rfl, [], by simp, by cases (a.seenPods.length == 0) <;> simp,
      by simp, by simp⟩
  split
  · exact hbase
  · exact foldl_invariant (CreationInv _ _) _ (fun p key hp => creationStep_inv _ _ p key hp)
      _ _ hbase

/-- C10: in every run of `update` at most 10 transitions are scheduled through
`window.setTimeout`; every delay is `100 * k` with `k` at most 9; no two
transitions of the run share a delay; every scheduled deletion has a smaller
delay than every scheduled creation; and when `seenPods` is empty at the start
no creation is scheduled. -/
theorem schedule_bounds {δ : Type} (env : Collaborators δ) (a : App) :
    (updatePass env a).2.afterCreation.timeouts.length ≤ 10 ∧
    (∀ t ∈ (updatePass env a).2.afterCreation.timeouts, ∃ k, k ≤ 9 ∧ t.delay = 100 * k) ∧
    ((updatePass env a).2.afterCreation.timeouts.map (fun t => t.delay)).Nodup ∧
    (∀ t₁ ∈ (updatePass env a).2.afterCreation.timeouts,
      ∀ t₂ ∈ (updatePass env a).2.afterCreation.timeouts,
        t₁.kind = Transition.deletion → t₂.kind = Transition.creation → t₁.delay < t₂.delay) ∧
    (a.seenPods.length = 0 →
      ∀ t ∈ (updatePass env a).2.afterCreation.timeouts, t.kind ≠ Transition.creation) := by
  obtain ⟨d1, d2, d3, d4, d5, d6⟩ := afterDeletion_inv env a
  obtain ⟨c1, c2, c3, added, c4, c5, c6, c7⟩ := afterCreation_inv env a
  generalize (updatePass env a).2.afterDeletion = p₁ at *
  generalize (updatePass env a).2.afterCreation = p₂ at *
  have hcross : ∀ x ∈ p₁.timeouts.map (fun t => t.delay),
      ∀ y ∈ added.map (fun t => t.delay), x < y := by
    intro x hx y hy
    simp only [List.mem_map] at hx hy
    obtain ⟨t, ht, rfl⟩ := hx
    obtain ⟨u, hu, rfl⟩ := hy
    obtain ⟨_, k, hk1, _, hk3⟩ := d5 t ht
    obtain ⟨_, k', hk0, _, _, hk3'⟩ := c6 u hu
    omega
  refine ⟨?_, ?_, ?_, ?_, ?_⟩
  · rw [c4, List.length_append, d3, c5]
    split <;> omega
  · intro t ht
    rw [c4, List.mem_append] at ht
    rcases ht with ht | ht
    · obtain ⟨_, k, _, hk2, hk3⟩ := d5 t ht
      exact ⟨k, hk2, hk3⟩
    · obtain ⟨_, k, _, _, hk2, hk3⟩ := c6 t ht
      exact ⟨k, hk2, hk3⟩
  · rw [c4, List.map_append]
    have hp : (p₁.timeouts.map (fun t => t.delay) ++ added.map (fun t => t.delay)).Pairwise
        (fun x y => x < y) := List.pairwise_append.mpr ⟨d6, c7, hcross⟩
    exact hp.imp (fun h => Nat.ne_of_lt h)
  · intro t₁ h₁ t₂ h₂ k₁ k₂
    rw [c4, List.mem_append] at h₁ h₂
    rcases h₁ with h₁ | h₁
    · rcases h₂ with h₂ | h₂
      · have := (d5 t₂ h₂).1
        rw [k₂] at this
        exact absurd this (by decide)
      · exact hcross _ (List.mem_map_of_mem _ h₁) _ (List.mem_map_of_mem _ h₂)
    · have := (c6 t₁ h₁).1
      rw [k₁] at this
      exact absurd this (by decide)
  · intro hfirst t ht
    have hb : (a.seenPods.length == 0) = true := by simp [hfirst]
    rw [hb] at c5
    simp only [if_true, List.length_eq_zero] at c5
    rw [c4, c5, List.append_nil] at ht
    rw [(d5 t ht).1]
    decide

/-- C4, counterexample: a run of `update` that is not the first, with ten
deleted pods and one created pod. All ten deletions are scheduled, and the
creation is not: the counter `changes` already stands at 10 when the creation
loop starts. Independent budgets would schedule `min 1 10 = 1` creation. -/
theorem creation_budget_used_by_deletions :
    busyApp.seenPods.length = 10 ∧
    (updatePass sampleEnv busyApp).2.afterCreation.deleted.length = 10 ∧
    (updatePass sampleEnv busyApp).2.afterCreation.created = ["c1/default/web"] ∧
    ((updatePass sampleEnv busyApp).2.afterCreation.timeouts.filter
      (fun t => t.kind == Transition.deletion)).length = 10 ∧
    ((updatePass sampleEnv busyApp).2.afterCreation.timeouts.filter
      (fun t => t.kind == Transition.creation)).length = 0 := by
  decide

theorem filter_kind_eq_self (l : List Timeout) (kind : Transition)
    (h : ∀ t ∈ l, t.kind = kind) : l.filter (fun t => t.kind == kind) = l := by
  rw [List.filter_eq_self]
  intro t ht
  simp [h t ht]

theorem filter_kind_eq_nil (l : List Timeout) (kind other : Transition) (hne : kind ≠ other)
    (h : ∀ t ∈ l, t.kind = kind) : l.filter (fun t => t.kind == other) = [] := by
  rw [List.filter_eq_nil_iff]
  intro t ht
  simp [h t ht, hne]

/-- C4, amended: the budget of 10 is one budget for the whole run of `update`,
counted by `changes` across both loops. With `d` deleted and `c` created pods,
`min d 10` deletions are scheduled and the other `d - min d 10` pods are
destroyed at once; on a run that is not the first, `min c (10 - min d 10)`
creations are scheduled, and on the first run none. -/
theorem animation_budget_shared {δ : Type} (env : Collaborators δ) (a : App) :
    ((updatePass env a).2.afterCreation.timeouts.filter
      (fun t => t.kind == Transition.deletion)).length =
        min (updatePass env a).2.afterCreation.deleted.length 10 ∧
    (updatePass env a).2.afterCreation.destroyed.length =
      (updatePass env a).2.afterCreation.deleted.length -
        min (updatePass env a).2.afterCreation.deleted.length 10 ∧
    ((updatePass env a).2.afterCreation.timeouts.filter
      (fun t => t.kind == Transition.creation)).length =
        (if a.seenPods.length = 0 then 0
         else min (updatePass env a).2.afterCreation.created.length
           (10 - min (updatePass env a).2.afterCreation.deleted.length 10)) := by
  obtain ⟨d1, d2, d3, d4, d5, d6⟩ := afterDeletion_inv env a
  obtain ⟨c1, c2, c3, added, c4, c5, c6, c7⟩ := afterCreation_inv env a
  generalize (updatePass env a).2.afterDeletion = p₁ at *
  generalize (updatePass env a).2.afterCreation = p₂ at *
  have hdel : p₁.timeouts.filter (fun t => t.kind == Transition.deletion) = p₁.timeouts :=
    filter_kind_eq_self _ _ (fun t ht => (d5 t ht).1)
  have hdel' : added.filter (fun t => t.kind == Transition.deletion) = [] :=
    filter_kind_eq_nil _ Transition.creation _ (by decide) (fun t ht => (c6 t ht).1)
  have hcre : p₁.timeouts.filter (fun t => t.kind == Transition.creation) = [] :=
    filter_kind_eq_nil _ Transition.deletion _ (by decide) (fun t ht => (d5 t ht).1)
  have hcre' : added.filter (fun t => t.kind == Transition.creation) = added :=
    filter_kind_eq_self _ _ (fun t ht => (c6 t ht).1)
  refine ⟨?_, ?_, ?_⟩
  · rw [c4, List.filter_append, hdel, hdel', List.append_nil, d3, c2, d1]
  · rw [c3, d4, c2, d1]
  · rw [c4, List.filter_append, hcre, hcre', List.nil_append, c5, c2]
    by_cases hf : a.seenPods.length = 0
    · simp [hf]
    · have hb : (a.seenPods.length == 0) = false := by simp [hf]
      simp only [hb, Bool.false_eq_true, if_false, hf]
      omega

/-! ## Pod keys and `seenPods` -/

theorem mem_Set_add (s : List String) (x k : String) :
    k ∈ Set_add s x ↔ k ∈ s ∨ k = x := by
  unfold Set_add Set_has
  by_cases h : s.contains x = true
  · simp only [h, if_true]
    constructor
    · exact Or.inl
    · rintro (hk | hk)
      · exact hk
      · subst hk; simpa using h
  · simp only [h, if_false, Bool.false_eq_true, List.mem_append, List.mem_singleton]

theorem mem_Set_delete (s : List String) (x k : String) :
    k ∈ Set_delete s x ↔ k ∈ s ∧ k ≠ x := by
  simp [Set_delete]

theorem Set_has_iff (s : List String) (x : String) : Set_has s x = true ↔ x ∈ s := by
  simp [Set_has]

theorem mem_foldl_Set_add {α : Type} (f : α → String) (l : List α) :
    ∀ (acc : List String) (k : String),
      k ∈ l.foldl (fun acc x => Set_add acc (f x)) acc ↔ k ∈ acc ∨ ∃ x ∈ l, f x = k := by
  induction l with
  | nil => intro acc k; simp
  | cons x rest ih =>
    intro acc k
    simp only [List.foldl_cons, ih, mem_Set_add, List.mem_cons, exists_eq_or_imp]
    constructor
    · rintro ((h | h) | h)
      · exact Or.inl h
      · exact Or.inr (Or.inl h.symm)
      · exact Or.inr (Or.inr h)
    · rintro (h | h | h)
      · exact Or.inl (Or.inl h)
      · exact Or.inl (Or.inr h.symm)
      · exact Or.inr h

theorem mem_nodes_fold (c : ClusterSnapshot) (nodes : List (String × NodeSnapshot)) :
    ∀ (acc : List String) (k : String),
      k ∈ nodes.foldl
        (fun podKeys node =>
          node.2.pods.foldl (fun podKeys pod => Set_add podKeys (podKey c pod.2)) podKeys) acc ↔
      k ∈ acc ∨ ∃ node ∈ nodes, ∃ entry ∈ node.2.pods, podKey c entry.2 = k := by
  induction nodes with
  | nil => intro acc k; simp
  | cons node rest ih =>
    intro acc k
    simp only [List.foldl_cons, ih, List.mem_cons, exists_eq_or_imp]
    rw [mem_foldl_Set_add (fun pod : String × PodSnapshot => podKey c pod.2)]
    exact or_assoc

theorem mem_podKeysOf_aux (clusters : List ClusterSnapshot) :
    ∀ (acc : List String) (k : String),
      k ∈ clusters.foldl
        (fun podKeys cluster =>
          let podKeys := cluster.nodes.foldl
            (fun podKeys node =>
              node.2.pods.foldl (fun podKeys pod => Set_add podKeys (podKey cluster pod.2))
                podKeys)
            podKeys
          cluster.unassigned_pods.foldl
            (fun podKeys pod => Set_add podKeys (podKey cluster pod.2)) podKeys) acc ↔
      k ∈ acc ∨ ∃ c ∈ clusters, ∃ pod, HasPod c pod ∧ podKey c pod = k := by
  induction clusters with
  | nil => intro acc k; simp
  | cons c rest ih =>
    intro acc k
    simp only [List.foldl_cons, ih, List.mem_cons, exists_eq_or_imp]
    rw [mem_foldl_Set_add (fun pod : String × PodSnapshot => podKey c pod.2), mem_nodes_fold]
    have hc : ((∃ node ∈ c.nodes, ∃ entry ∈ node.2.pods, podKey c entry.2 = k) ∨
        ∃ x ∈ c.unassigned_pods, podKey c x.2 = k) ↔ ∃ pod, HasPod c pod ∧ podKey c pod = k := by
      constructor
      · rintro (⟨node, hn, entry, he, hk⟩ | ⟨entry, he, hk⟩)
        · exact ⟨entry.2, Or.inl ⟨node, hn, entry, he, rfl⟩, hk⟩
        · exact ⟨entry.2, Or.inr ⟨entry, he, rfl⟩, hk⟩
      · rintro ⟨pod, (⟨node, hn, entry, he, rfl⟩ | ⟨entry, he, rfl⟩), hk⟩
        · exact Or.inl ⟨node, hn, entry, he, hk⟩
        · exact Or.inr ⟨entry, he, hk⟩
    rw [← hc]
    simp only [or_assoc]

theorem mem_podKeysOf (clusters : List ClusterSnapshot) (k : String) :
    k ∈ podKeysOf clusters ↔ ∃ c ∈ clusters, ∃ pod, HasPod c pod ∧ podKey c pod = k := by
  unfold podKeysOf
  rw [mem_podKeysOf_aux]
  simp

theorem mem_sortedClusters (store : List (String × ClusterSnapshot)) (c : ClusterSnapshot) :
    c ∈ sortedClusters store ↔ ∃ e ∈ store, e.2 = c := by
  unfold sortedClusters
  simp only [List.mem_map]
  constructor
  · rintro ⟨e, he, rfl⟩
    exact ⟨e, (List.perm_insertionSort _ _).mem_iff.mp he, rfl⟩
  · rintro ⟨e, he, rfl⟩
    exact ⟨e, (List.perm_insertionSort _ _).mem_iff.mpr he, rfl⟩

theorem deletionLoop_effect (podKeys : List String) (keys : List String) :
    ∀ p : Pass,
      (keys.foldl (deletionStep podKeys) p).deleted =
        p.deleted ++ keys.filter (fun k => !Set_has podKeys k) ∧
      (∀ k, k ∈ (keys.foldl (deletionStep podKeys) p).seenPods ↔
        k ∈ p.seenPods ∧ ¬ (k ∈ keys ∧ k ∉ podKeys)) ∧
      (∀ k, k ∈ (keys.foldl (deletionStep podKeys) p).ALL_PODS ↔
        k ∈ p.ALL_PODS ∧ ¬ (k ∈ keys ∧ k ∉ podKeys)) := by
  induction keys with
  | nil => intro p; simp
  | cons key rest ih =>
    intro p
    obtain ⟨i1, i2, i3⟩ := ih (deletionStep podKeys p key)
    simp only [List.foldl_cons]
    by_cases hk : Set_has podKeys key = true
    · have hstep : deletionStep podKeys p key = p := by simp [deletionStep, hk]
      have hmem : key ∈ podKeys := (Set_has_iff _ _).mp hk
      rw [hstep] at i1 i2 i3 ⊢
      refine ⟨?_, ?_, ?_⟩
      · rw [i1]; simp [hk]
      · intro k
        rw [i2]
        simp only [List.mem_cons]
        constructor
        · rintro ⟨h1, h2⟩
          refine ⟨h1, ?_⟩
          rintro ⟨h3 | h3, h4⟩
          · subst h3; exact h4 hmem
          · exact h2 ⟨h3, h4⟩
        · rintro ⟨h1, h2⟩
          exact ⟨h1, fun ⟨h3, h4⟩ => h2 ⟨Or.inr h3, h4⟩⟩
      · intro k
        rw [i3]
        simp only [List.mem_cons]
        constructor
        · rintro ⟨h1, h2⟩
          refine ⟨h1, ?_⟩
          rintro ⟨h3 | h3, h4⟩
          · subst h3; exact h4 hmem
          · exact h2 ⟨h3, h4⟩
        · rintro ⟨h1, h2⟩
          exact ⟨h1, fun ⟨h3, h4⟩ => h2 ⟨Or.inr h3, h4⟩⟩
    · have hmem : key ∉ podKeys := fun h => hk ((Set_has_iff _ _).mpr h)
      have hd : (deletionStep podKeys p key).deleted = p.deleted ++ [key] := by
        simp only [deletionStep, hk, Bool.not_false, if_true]
        split <;> rfl
      have hs : (deletionStep podKeys p key).seenPods = Set_delete p.seenPods key := by
        simp only [deletionStep, hk, Bool.not_false, if_true]
        split <;> rfl
      have ha : (deletionStep podKeys p key).ALL_PODS = p.ALL_PODS.filter (fun k => k != key) := by
        simp only [deletionStep, hk, Bool.not_false, if_true]
        split <;> rfl
      refine ⟨?_, ?_, ?_⟩
      · rw [i1, hd]; simp [hk]
      · intro k
        rw [i2, hs, mem_Set_delete]
        simp only [List.mem_cons]
        constructor
        · rintro ⟨⟨h1, h1'⟩, h2⟩
          refine ⟨h1, ?_⟩
          rintro ⟨h3 | h3, h4⟩
          · exact h1' h3
          · exact h2 ⟨h3, h4⟩
        · rintro ⟨h1, h2⟩
          refine ⟨⟨h1, ?_⟩, fun ⟨h3, h4⟩ => h2 ⟨Or.inr h3, h4⟩⟩
          intro h3
          subst h3
          exact h2 ⟨Or.inl rfl, hmem⟩
      · intro k
        rw [i3, ha]
        simp only [List.mem_filter, bne_iff_ne, ne_eq, List.mem_cons]
        constructor
        · rintro ⟨⟨h1, h1'⟩, h2⟩
          refine ⟨h1, ?_⟩
          rintro ⟨h3 | h3, h4⟩
          · exact h1' h3
          · exact h2 ⟨h3, h4⟩
        · rintro ⟨h1, h2⟩
          refine ⟨⟨h1, ?_⟩, fun ⟨h3, h4⟩ => h2 ⟨Or.inr h3, h4⟩⟩
          intro h3
          subst h3
          exact h2 ⟨Or.inl rfl, hmem⟩

theorem creationLoop_effect (firstTime : Bool) (keys : List String) :
    ∀ p : Pass,
      (keys.foldl (creationStep firstTime) p).ALL_PODS = p.ALL_PODS ∧
      ∃ added : List String,
        (keys.foldl (creationStep firstTime) p).created = p.created ++ added ∧
        (keys.foldl (creationStep firstTime) p).seenPods = p.seenPods ++ added ∧
        added.Nodup ∧ ∀ k, k ∈ added ↔ k ∈ keys ∧ k ∉ p.seenPods := by
  induction keys with
  | nil => intro p; exact ⟨rfl, [], by simp⟩
  | cons key rest ih =>
    intro p
    obtain ⟨i1, added, i2, i3, i4, i5⟩ := ih (creationStep firstTime p key)
    simp only [List.foldl_cons]
    by_cases hk : Set_has p.seenPods key = true
    · have hstep : creationStep firstTime p key = p := by simp [creationStep, hk]
      have hmem : key ∈ p.seenPods := (Set_has_iff _ _).mp hk
      rw [hstep] at i1 i2 i3 i5 ⊢
      refine ⟨i1, added, i2, i3, i4, ?_⟩
      intro k
      rw [i5]
      simp only [List.mem_cons]
      constructor
      · rintro ⟨h1, h2⟩; exact ⟨Or.inr h1, h2⟩
      · rintro ⟨h1 | h1, h2⟩
        · subst h1; exact absurd hmem h2
        · exact ⟨h1, h2⟩
    · have hmem : key ∉ p.seenPods := fun h => hk ((Set_has_iff _ _).mpr h)
      have hadd : Set_add p.seenPods key = p.seenPods ++ [key] := by simp [Set_add, hk]
      have ha : (creationStep firstTime p key).ALL_PODS = p.ALL_PODS := by
        simp only [creationStep, hk, Bool.not_false, if_true]
        split <;> rfl
      have hc : (creationStep firstTime p key).created = p.created ++ [key] := by
        simp only [creationStep, hk, Bool.not_false, if_true]
        split <;> rfl
      have hs : (creationStep firstTime p key).seenPods = p.seenPods ++ [key] := by
        simp only [creationStep, hk, Bool.not_false, if_true]
        split <;> exact hadd
      rw [ha] at i1
      rw [hc] at i2
      rw [hs] at i3 i5
      refine ⟨i1, key :: added, by simp [i2], by simp [i3], ?_, ?_⟩
      · refine List.nodup_cons.mpr ⟨?_, i4⟩
        intro hin
        exact ((i5 key).mp hin).2 (by simp)
      · intro k
        simp only [List.mem_cons, i5, List.mem_append, List.mem_singleton, not_or]
        constructor
        · rintro (h | ⟨h1, h2, _⟩)
          · subst h; exact ⟨Or.inl rfl, hmem⟩
          · exact ⟨Or.inr h1, h2⟩
        · rintro ⟨h1 | h1, h2⟩
          · exact Or.inl h1
          · by_cases hkk : k = key
            · exact Or.inl hkk
            · exact Or.inr ⟨h1, h2, hkk, by simp⟩

/-! ## Rebuild loop -/

theorem rebuildStep_threw {δ : Type} (env : Collaborators δ) (sel : List String)
    (byId : List (String × Nat)) (r : Rebuild) (c : ClusterSnapshot) (h : r.threw = true) :
    rebuildStep env sel byId r c = r := by
  simp [rebuildStep, h]

theorem rebuildStep_ok {δ : Type} (env : Collaborators δ) (sel : List String)
    (byId : List (String × Nat)) (r : Rebuild) (c : ClusterSnapshot) (hr : r.threw = false)
    (hid : inheritedMember c.id = false) :
    (rebuildStep env sel byId r c).threw = false ∧
    (rebuildStep env sel byId r c).layout =
      r.layout ++ (if isSelected sel c then [(c.id, r.y)] else []) ∧
    (rebuildStep env sel byId r c).ALL_PODS =
      (if isSelected sel c then env.draw c r.ALL_PODS else r.ALL_PODS) := by
  unfold rebuildStep isSelected
  simp only [hr, Bool.false_eq_true, if_false]
  by_cases h : (sel.length == 0 || Set_has sel c.id) = true
  · simp only [h, if_true]
    cases Map_get byId c.id with
    | none => simp [hid, hr]
    | some i => simp [hr]
  · simp only [h, if_false, Bool.false_eq_true, List.append_nil]
    exact ⟨hr, trivial, trivial⟩

theorem rebuildStep_layoutInv {δ : Type} (env : Collaborators δ) (sel : List String)
    (byId : List (String × Nat)) (r : Rebuild) (c : ClusterSnapshot) (h : LayoutInv r) :
    LayoutInv (rebuildStep env sel byId r c) := by
  obtain ⟨h1, h2⟩ := h
  have hnew : LayoutInv
      { r with y := r.y + (env.height c + 10), layout := r.layout ++ [(c.id, r.y)] } := by
    refine ⟨?_, ?_⟩
    · simp only [List.map_append, List.map_cons, List.map_nil, List.pairwise_append,
        List.pairwise_cons, List.Pairwise.nil, List.mem_map, List.mem_singleton]
      refine ⟨h1, ⟨by simp, trivial⟩, ?_⟩
      rintro x ⟨e, he, rfl⟩ y rfl
      exact h2 e he
    · intro e he
      simp only [List.mem_append, List.mem_singleton] at he
      rcases he with he | he
      · have := h2 e he
        show e.2 < r.y + (env.height c + 10)
        omega
      · subst he
        show r.y < r.y + (env.height c + 10)
        omega
  unfold rebuildStep
  split
  · exact ⟨h1, h2⟩
  · split
    · split
      · exact hnew
      · split
        · exact ⟨h1, h2⟩
        · exact hnew
    · exact ⟨h1, h2⟩

theorem rebuildStep_registry {δ : Type} (env : Collaborators δ)
    (hkeep : ∀ (c : ClusterSnapshot) (registry : List String) (k : String),
      k ∈ registry → k ∈ env.draw c registry)
    (sel : List String) (byId : List (String × Nat)) (r : Rebuild) (c : ClusterSnapshot)
    (k : String) (h : k ∈ r.ALL_PODS) : k ∈ (rebuildStep env sel byId r c).ALL_PODS := by
  unfold rebuildStep
  split
  · exact h
  · split
    · split
      · exact hkeep c _ k h
      · split
        · exact h
        · exact hkeep c _ k h
    · exact h

theorem rebuildLoop_ok {δ : Type} (env : Collaborators δ) (sel : List String)
    (byId : List (String × Nat)) (clusters : List ClusterSnapshot) :
    (∀ c ∈ clusters, inheritedMember c.id = false) → ∀ r : Rebuild, r.threw = false →
      (clusters.foldl (rebuildStep env sel byId) r).threw = false ∧
      (clusters.foldl (rebuildStep env sel byId) r).layout.map (fun e => e.1) =
        r.layout.map (fun e => e.1) ++ (clusters.filter (isSelected sel)).map (fun c => c.id) ∧
      (clusters.foldl (rebuildStep env sel byId) r).ALL_PODS =
        (clusters.filter (isSelected sel)).foldl (fun registry c => env.draw c registry)
          r.ALL_PODS := by
  induction clusters with
  | nil => intro _ r hr; simp [hr]
  | cons c rest ih =>
    intro hid r hr
    obtain ⟨s1, s2, s3⟩ := rebuildStep_ok env sel byId r c hr (hid c (List.mem_cons_self _ _))
    obtain ⟨i1, i2, i3⟩ := ih (fun x hx => hid x (List.mem_cons_of_mem _ hx))
      (rebuildStep env sel byId r c) s1
    simp only [List.foldl_cons]
    refine ⟨i1, ?_, ?_⟩
    · rw [i2, s2]
      by_cases h : isSelected sel c = true
      · simp [h, List.filter_cons]
      · simp [h, List.filter_cons]
    · rw [i3, s3]
      by_cases h : isSelected sel c = true
      · simp [h, List.filter_cons]
      · simp [h, List.filter_cons]

theorem rebuildLoop_layoutInv {δ : Type} (env : Collaborators δ) (sel : List String)
    (byId : List (String × Nat)) (clusters : List ClusterSnapshot) (r : Rebuild)
    (h : LayoutInv r) : LayoutInv (clusters.foldl (rebuildStep env sel byId) r) :=
  foldl_invariant LayoutInv _ (fun r c hr => rebuildStep_layoutInv env sel byId r c hr) _ _ h

theorem rebuildLoop_registry {δ : Type} (env : Collaborators δ)
    (hkeep : ∀ (c : ClusterSnapshot) (registry : List String) (k : String),
      k ∈ registry → k ∈ env.draw c registry)
    (sel : List String) (byId : List (String × Nat)) (clusters : List ClusterSnapshot)
    (r : Rebuild) (k : String) (h : k ∈ r.ALL_PODS) :
    k ∈ (clusters.foldl (rebuildStep env sel byId) r).ALL_PODS :=
  foldl_invariant (fun r : Rebuild => k ∈ r.ALL_PODS) _
    (fun r c hr => rebuildStep_registry env hkeep sel byId r c k hr) _ _ h

theorem mem_draw_fold {δ : Type} (env : Collaborators δ) (hdraw : RegistersPods env)
    (clusters : List ClusterSnapshot) :
    ∀ (registry : List String) (k : String),
      k ∈ clusters.foldl (fun registry c => env.draw c registry) registry ↔
        k ∈ registry ∨ ∃ c ∈ clusters, ∃ pod, HasPod c pod ∧ podKey c pod = k := by
  induction clusters with
  | nil => intro registry k; simp
  | cons c rest ih =>
    intro registry k
    simp only [List.foldl_cons, ih, hdraw c registry k, List.mem_cons, exists_eq_or_imp]
    exact or_assoc

theorem update_seenPods {δ : Type} (env : Collaborators δ) (a : App) :
    (update env a).seenPods = (updatePass env a).2.afterCreation.seenPods ∧
    (update env a).ALL_PODS = (updatePass env a).2.afterCreation.ALL_PODS := by
  unfold update updatePass
  dsimp only
  split
  · exact ⟨rfl, rfl⟩
  · exact ⟨rfl, rfl⟩

theorem sampleEnv_registersPods : RegistersPods sampleEnv := by
  intro c registry k
  show k ∈ (c.nodes.flatMap (fun node => node.2.pods.map (fun pod => podKey c pod.2)) ++
      c.unassigned_pods.map (fun pod => podKey c pod.2)).foldl Set_add registry ↔ _
  rw [mem_foldl_Set_add (fun x : String => x)]
  simp only [List.mem_append, List.mem_flatMap, List.mem_map, exists_eq_right]
  constructor
  · rintro (h | ⟨node, hn, entry, he, hk⟩ | ⟨entry, he, hk⟩)
    · exact Or.inl h
    · exact Or.inr ⟨entry.2, Or.inl ⟨node, hn, entry, he, rfl⟩, hk⟩
    · exact Or.inr ⟨entry.2, Or.inr ⟨entry, he, rfl⟩, hk⟩
  · rintro (h | ⟨pod, (⟨node, hn, entry, he, rfl⟩ | ⟨entry, he, rfl⟩), hk⟩)
    · exact Or.inl h
    · exact Or.inr (Or.inl ⟨node, hn, entry, he, hk⟩)
    · exact Or.inr (Or.inr ⟨entry, he, hk⟩)

/-- C3, counterexample: the stream without filter delivers the cluster `a,b`
and the user selects it; the transport is reopened with `?cluster_ids=a,b`, a
comma-joined list naming the clusters `a` and `b`, and a snapshot of `a`
arrives on it. The snapshot is stored, but `a` is not selected and is never
drawn: after the pass `seenPods` holds the pod of `a,b` only, while the pod
keys of the stored snapshots are those of `a` and of `a,b`. -/
theorem seenPods_misses_undrawn_cluster :
    (run sampleEnv (App.constructor "") commaActions).seenPods = ["a,b/default/web"] ∧
    podKeysOf (sortedClusters (run sampleEnv (App.constructor "") commaActions).clusters)
      = ["a/default/web", "a,b/default/web"] ∧
    (run sampleEnv (App.constructor "") commaActions).selectedClusters = ["a,b"] ∧
    (run sampleEnv (App.constructor "") commaActions).urls
      = [(0, "events"), (3, "events?cluster_ids=a,b")] ∧
    (run sampleEnv (App.constructor "") commaActions).openSources = [3] ∧
    split ',' "a,b" = ["a", "b"] ∧
    (run sampleEnv (App.constructor "") commaActions).calls.getLast? = some Call.update := by
  decide

/-- C3, amended: let `draw` register the pods of the cluster it draws, let
`seenPods` be part of the registry `ALL_PODS` at the start (as in every state
the application reaches, see `run_seen_registered`), and let no stored id name
an inherited member of plain objects (no component has the id `__proto__`).
Then `update` returns, and afterwards `seenPods` is the registry `ALL_PODS`:
the keys registered at the start that are pod keys of stored snapshots,
together with the pod keys of the selected stored snapshots. The keys taken
out of `seenPods` are those of `seenPods` before that are not in `podKeys`
(the pod keys of all stored snapshots, selected or not); the keys added are
those of `seenPods` after that were not in it before. `seenPods` equals
`podKeys` exactly when every key of `podKeys` is registered at the start or
belongs to a selected snapshot: pods of a stored snapshot that is not selected
and was never drawn are missing from `seenPods`. -/
theorem seenPods_follows_registry {δ : Type} (env : Collaborators δ) (a : App)
    (hdraw : RegistersPods env) (hseen : ∀ k ∈ a.seenPods, k ∈ a.ALL_PODS)
    (hids : ∀ e ∈ a.clusters, inheritedMember e.2.id = false)
    (_hchildren : ∀ box ∈ a.children, box.cluster.id ≠ "__proto__") :
    (∀ k, k ∈ podKeysOf (sortedClusters a.clusters) ↔
      ∃ e ∈ a.clusters, ∃ pod, HasPod e.2 pod ∧ podKey e.2 pod = k) ∧
    updateThrows env a = false ∧
    (∀ k, k ∈ (update env a).seenPods ↔
      (k ∈ a.ALL_PODS ∧ k ∈ podKeysOf (sortedClusters a.clusters)) ∨ SelectedKey a k) ∧
    (∀ k, k ∈ (update env a).seenPods ↔ k ∈ (update env a).ALL_PODS) ∧
    (∀ k, (k ∈ a.seenPods ∧ k ∉ (update env a).seenPods) ↔
      (k ∈ a.seenPods ∧ k ∉ podKeysOf (sortedClusters a.clusters))) ∧
    (∀ k, k ∈ (updatePass env a).2.afterCreation.created ↔
      (k ∈ (update env a).seenPods ∧ k ∉ a.seenPods)) ∧
    ((∀ k, k ∈ (update env a).seenPods ↔ k ∈ podKeysOf (sortedClusters a.clusters)) ↔
      ∀ k ∈ podKeysOf (sortedClusters a.clusters), k ∈ a.ALL_PODS ∨ SelectedKey a k) := by
  have hpk : ∀ k, k ∈ podKeysOf (sortedClusters a.clusters) ↔
      ∃ e ∈ a.clusters, ∃ pod, HasPod e.2 pod ∧ podKey e.2 pod = k := by
    intro k
    rw [mem_podKeysOf]
    constructor
    · rintro ⟨c, hc, pod, hp, hk⟩
      obtain ⟨e, he, rfl⟩ := (mem_sortedClusters _ _).mp hc
      exact ⟨e, he, pod, hp, hk⟩
    · rintro ⟨e, he, pod, hp, hk⟩
      exact ⟨e.2, (mem_sortedClusters _ _).mpr ⟨e, he, rfl⟩, pod, hp, hk⟩
  have hselpk : ∀ k, SelectedKey a k → k ∈ podKeysOf (sortedClusters a.clusters) := by
    rintro k ⟨e, he, _, pod, hp, hk⟩
    exact (hpk k).mpr ⟨e, he, pod, hp, hk⟩
  obtain ⟨hs, ha⟩ := update_seenPods env a
  obtain ⟨_, d2, d3⟩ := deletionLoop_effect (podKeysOf (sortedClusters a.clusters)) a.ALL_PODS
    (startPass a)
  rw [← updatePass_afterDeletion env a] at d2 d3
  simp only [startPass] at d2 d3
  obtain ⟨_, dc, _⟩ := afterDeletion_inv env a
  have hidsorted : ∀ c ∈ sortedClusters a.clusters, inheritedMember c.id = false := by
    intro c hc
    obtain ⟨e, he, rfl⟩ := (mem_sortedClusters _ _).mp hc
    exact hids e he
  obtain ⟨r1, _, r3⟩ := rebuildLoop_ok env a.selectedClusters (clusterComponentById a.children)
    (sortedClusters a.clusters) hidsorted
    (startRebuild a (updatePass env a).2.afterDeletion.ALL_PODS) rfl
  rw [← updatePass_rebuilt env a] at r1 r3
  simp only [startRebuild] at r3
  have hreg : ∀ k, k ∈ (updatePass env a).2.rebuilt.ALL_PODS ↔
      (k ∈ a.ALL_PODS ∧ k ∈ podKeysOf (sortedClusters a.clusters)) ∨ SelectedKey a k := by
    intro k
    rw [r3, mem_draw_fold env hdraw, d3]
    constructor
    · rintro (⟨h1, h2⟩ | ⟨c, hc, pod, hp, hk⟩)
      · exact Or.inl ⟨h1, by_contra (fun h => h2 ⟨h1, h⟩)⟩
      · obtain ⟨hc1, hc2⟩ := List.mem_filter.mp hc
        obtain ⟨e, he, rfl⟩ := (mem_sortedClusters _ _).mp hc1
        exact Or.inr ⟨e, he, hc2, pod, hp, hk⟩
    · rintro (⟨h1, h2⟩ | ⟨e, he, hsel, pod, hp, hk⟩)
      · exact Or.inl ⟨h1, fun h => h.2 h2⟩
      · exact Or.inr ⟨e.2, List.mem_filter.mpr
          ⟨(mem_sortedClusters _ _).mpr ⟨e, he, rfl⟩, hsel⟩, pod, hp, hk⟩
  have hcre := updatePass_afterCreation env a
  simp only [r1, Bool.false_eq_true, if_false] at hcre
  obtain ⟨c1, added, c2, c3, _, c5⟩ := creationLoop_effect (a.seenPods.length == 0)
    (updatePass env a).2.rebuilt.ALL_PODS
    { (updatePass env a).2.afterDeletion with ALL_PODS := (updatePass env a).2.rebuilt.ALL_PODS }
  rw [← hcre] at c1 c2 c3
  simp only at c1 c2 c3 c5
  have hall : (update env a).ALL_PODS = (updatePass env a).2.rebuilt.ALL_PODS := by
    rw [ha, c1]
  have hsub : ∀ k, k ∈ (updatePass env a).2.afterDeletion.seenPods →
      k ∈ (updatePass env a).2.rebuilt.ALL_PODS := by
    intro k hk
    obtain ⟨h1, h2⟩ := (d2 k).mp hk
    have h3 := hseen k h1
    exact (hreg k).mpr (Or.inl ⟨h3, by_contra (fun h => h2 ⟨h3, h⟩)⟩)
  have hmain : ∀ k, k ∈ (update env a).seenPods ↔ k ∈ (updatePass env a).2.rebuilt.ALL_PODS := by
    intro k
    rw [hs, c3, List.mem_append, c5]
    constructor
    · rintro (h | ⟨h, _⟩)
      · exact hsub k h
      · exact h
    · intro h
      by_cases hk : k ∈ (updatePass env a).2.afterDeletion.seenPods
      · exact Or.inl hk
      · exact Or.inr ⟨h, hk⟩
  have hseen' : ∀ k, k ∈ (update env a).seenPods ↔
      (k ∈ a.ALL_PODS ∧ k ∈ podKeysOf (sortedClusters a.clusters)) ∨ SelectedKey a k :=
    fun k => (hmain k).trans (hreg k)
  have hin : ∀ k, k ∈ (update env a).seenPods → k ∈ podKeysOf (sortedClusters a.clusters) := by
    intro k hk
    rcases (hseen' k).mp hk with h | h
    · exact h.2
    · exact hselpk k h
  refine ⟨hpk, ?_, hseen', ?_, ?_, ?_, ?_⟩
  · unfold updateThrows
    rw [updatePass_threw, r1]
  · intro k
    rw [hall]
    exact hmain k
  · intro k
    constructor
    · rintro ⟨h1, h2⟩
      exact ⟨h1, fun h => h2 ((hseen' k).mpr (Or.inl ⟨hseen k h1, h⟩))⟩
    · rintro ⟨h1, h2⟩
      exact ⟨h1, fun h => h2 (hin k h)⟩
  · intro k
    rw [c2, dc, List.nil_append, c5]
    constructor
    · rintro ⟨h1, h2⟩
      refine ⟨(hmain k).mpr h1, fun h => h2 ((d2 k).mpr ⟨h, fun h' => h'.2 ?_⟩)⟩
      exact hin k ((hmain k).mpr h1)
    · rintro ⟨h1, h2⟩
      exact ⟨(hmain k).mp h1, fun h => h2 ((d2 k).mp h).1⟩
  · constructor
    · intro heq k hk
      rcases (hseen' k).mp ((heq k).mpr hk) with h | h
      · exact Or.inl h.1
      · exact Or.inr h
    · intro hcov k
      constructor
      · exact hin k
      · intro hk
        rcases hcov k hk with h | h
        · exact (hseen' k).mpr (Or.inl ⟨h, hk⟩)
        · exact (hseen' k).mpr (Or.inr h)

/-- C3, the amended claim at a concrete pass: `c1` and `c2` are stored and
have been drawn, `c1` alone is selected; after `update` the keys in `seenPods`
are the pod keys of both stored snapshots. -/
theorem seenPods_follows_registry_witness :
    toggledApp.selectedClusters = ["c1"] ∧
    podKeysOf (sortedClusters toggledApp.clusters) = ["c1/default/web", "c2/default/web"] ∧
    (∀ k, k ∈ (update sampleEnv toggledApp).seenPods ↔
      k ∈ podKeysOf (sortedClusters toggledApp.clusters)) :=
  ⟨by decide, by decide,
   (seenPods_follows_registry sampleEnv toggledApp sampleEnv_registersPods
      (by decide) (by decide) (by decide)).2.2.2.2.2.2.mpr
      (fun k hk => Or.inl
        ((by decide : ∀ k ∈ podKeysOf (sortedClusters toggledApp.clusters),
          k ∈ toggledApp.ALL_PODS) k hk))⟩

/-! ## Invariants of the registry and of the components -/

theorem disconnect_view (a : App) :
    (disconnect a).seenPods = a.seenPods ∧ (disconnect a).ALL_PODS = a.ALL_PODS ∧
    (disconnect a).children = a.children := by
  unfold disconnect
  cases a.eventSource <;> exact ⟨rfl, rfl, rfl⟩

theorem connect_view (a : App) :
    (connect a).seenPods = a.seenPods ∧ (connect a).ALL_PODS = a.ALL_PODS ∧
    (connect a).children = a.children := by
  unfold connect
  obtain ⟨_, _, _, _, _, _, _, h8, h9, h10⟩ := keepAlive_fields
    { disconnect { a with calls := a.calls ++ [Call.connect] } with
      eventSource := some (disconnect { a with calls := a.calls ++ [Call.connect] }).nextHandle
      openSources := (disconnect { a with calls := a.calls ++ [Call.connect] }).openSources ++
        [(disconnect { a with calls := a.calls ++ [Call.connect] }).nextHandle]
      urls := (disconnect { a with calls := a.calls ++ [Call.connect] }).urls ++
        [((disconnect { a with calls := a.calls ++ [Call.connect] }).nextHandle,
          eventsUrl (disconnect { a with calls := a.calls ++ [Call.connect] }).selectedClusters)]
      nextHandle := (disconnect { a with calls := a.calls ++ [Call.connect] }).nextHandle + 1 }
  obtain ⟨d1, d2, d3⟩ := disconnect_view { a with calls := a.calls ++ [Call.connect] }
  exact ⟨h8.trans d1, h10.trans d2, h9.trans d3⟩

theorem update_seenRegistered {δ : Type} (env : Collaborators δ)
    (hkeep : ∀ (c : ClusterSnapshot) (registry : List String) (k : String),
      k ∈ registry → k ∈ env.draw c registry)
    (a : App) (h : SeenRegistered a) : SeenRegistered (update env a) := by
  obtain ⟨hs, ha⟩ := update_seenPods env a
  obtain ⟨_, d2, d3⟩ := deletionLoop_effect (podKeysOf (sortedClusters a.clusters)) a.ALL_PODS
    (startPass a)
  rw [← updatePass_afterDeletion env a] at d2 d3
  simp only [startPass] at d2 d3
  have hmono : ∀ k, k ∈ (updatePass env a).2.afterDeletion.ALL_PODS →
      k ∈ (updatePass env a).2.rebuilt.ALL_PODS := by
    intro k hk
    rw [updatePass_rebuilt]
    exact rebuildLoop_registry env hkeep _ _ _ _ k hk
  have hsub : ∀ k, k ∈ (updatePass env a).2.afterDeletion.seenPods →
      k ∈ (updatePass env a).2.rebuilt.ALL_PODS := by
    intro k hk
    obtain ⟨h1, h2⟩ := (d2 k).mp hk
    exact hmono k ((d3 k).mpr ⟨h k h1, h2⟩)
  have hcre := updatePass_afterCreation env a
  intro k hk
  rw [hs] at hk
  rw [ha]
  by_cases ht : (updatePass env a).2.rebuilt.threw = true
  · simp only [ht, if_true] at hcre
    rw [hcre] at hk ⊢
    exact hsub k hk
  · have hf : (updatePass env a).2.rebuilt.threw = false := by simpa using ht
    simp only [hf, Bool.false_eq_true, if_false] at hcre
    obtain ⟨c1, added, _, c3, _, c5⟩ := creationLoop_effect (a.seenPods.length == 0)
      (updatePass env a).2.rebuilt.ALL_PODS
      { (updatePass env a).2.afterDeletion with
        ALL_PODS := (updatePass env a).2.rebuilt.ALL_PODS }
    rw [← hcre] at c1 c3
    simp only at c1 c3 c5
    rw [c1]
    rw [c3, List.mem_append, c5] at hk
    rcases hk with hk | ⟨hk, _⟩
    · exact hsub k hk
    · exact hk

theorem step_seenRegistered {δ : Type} (env : Collaborators δ)
    (hkeep : ∀ (c : ClusterSnapshot) (registry : List String) (k : String),
      k ∈ registry → k ∈ env.draw c registry)
    (a : App) (act : Action δ) (h : SeenRegistered a) : SeenRegistered (step env a act) := by
  have hcopy : ∀ b : App, b.seenPods = a.seenPods → b.ALL_PODS = a.ALL_PODS →
      SeenRegistered b := by
    intro b h1 h2 k hk
    rw [h2]
    exact h k (h1 ▸ hk)
  have hkeepAlive : ∀ b : App, SeenRegistered b → SeenRegistered (keepAlive b) := by
    intro b hb k hk
    obtain ⟨_, _, _, _, _, _, _, h8, _, h10⟩ := keepAlive_fields b
    rw [h10]
    exact hb k (h8 ▸ hk)
  have hconnect : ∀ b : App, SeenRegistered b → SeenRegistered (connect b) := by
    intro b hb k hk
    obtain ⟨c1, c2, _⟩ := connect_view b
    rw [c2]
    exact hb k (c1 ▸ hk)
  have hdisconnect : ∀ b : App, SeenRegistered b → SeenRegistered (disconnect b) := by
    intro b hb k hk
    obtain ⟨c1, c2, _⟩ := disconnect_view b
    rw [c2]
    exact hb k (c1 ▸ hk)
  cases act with
  | connect => exact hconnect a h
  | disconnect => exact hdisconnect a h
  | keepAlive => exact hkeepAlive a h
  | toggleCluster clusterId =>
    simp only [step, toggleCluster]
    apply update_seenRegistered env hkeep
    apply hconnect
    split <;> exact h
  | timerFires timer =>
    simp only [step]
    split
    · exact hconnect _ h
    · exact h
  | error source closed =>
    simp only [step]
    split
    · have honerror : ∀ b : App, SeenRegistered b → SeenRegistered (onerror b) := by
        intro b hb
        unfold onerror
        dsimp only
        split
        · exact hconnect _ hb
        · exact hdisconnect _ hb
      apply honerror
      cases closed <;> exact h
    · exact h
  | clusterupdate source data =>
    simp only [step]
    split
    · have hk := hkeepAlive { a with _errors := .num 0 } h
      unfold onClusterupdate
      cases JSON_parse data with
      | none => exact hk
      | some cluster =>
        simp only [settle_ite]
        exact update_seenRegistered env hkeep _ hk
    · exact h
  | clusterdelta source data =>
    simp only [step]
    split
    · have hk := hkeepAlive { a with _errors := .num 0 } h
      unfold onClusterdelta
      cases JSON_parse data with
      | none => exact hk
      | some d =>
        simp only
        split
        · split
          · exact hk
          · simp only [settle_ite]
            exact update_seenRegistered env hkeep _ hk
        · exact hk
    · exact h

/-- In every state the application reaches, with collaborators whose `draw`
takes no key out of the registry, each key of `seenPods` is registered in
`ALL_PODS`. -/
theorem run_seen_registered {δ : Type} (env : Collaborators δ)
    (hkeep : ∀ (c : ClusterSnapshot) (registry : List String) (k : String),
      k ∈ registry → k ∈ env.draw c registry)
    (hash : String) (actions : List (Action δ)) :
    SeenRegistered (run env (App.constructor hash) actions) := by
  unfold run
  refine foldl_invariant SeenRegistered (step env)
    (fun a act h => step_seenRegistered env hkeep a act h) actions _ ?_
  intro k hk
  simp [App.constructor] at hk


theorem clusterComponentById_keys (children : List ClusterBox) :
    ∀ id i, Map_get (clusterComponentById children) id = some i →
      ∃ box ∈ children, box.cluster.id = id := by
  unfold clusterComponentById
  refine foldl_invariant_mem
    (fun byId : List (String × Nat) =>
      ∀ id i, Map_get byId id = some i → ∃ box ∈ children, box.cluster.id = id) _ _ ?_ []
    (by intro id i h; simp [Map_get] at h)
  intro byId ci hci hb id i hget
  have hmem : ci.1 ∈ children := (List.of_mem_zip (show (ci.1, ci.2) ∈ _ from hci)).1
  split at hget
  · exact hb id i hget
  · by_cases hid : id = ci.1.cluster.id
    · exact ⟨ci.1, hmem, hid.symm⟩
    · rw [Map_get_set_ne _ _ _ _ hid] at hget
      exact hb id i hget

theorem rebuildStep_plain {δ : Type} (env : Collaborators δ) (sel : List String)
    (byId : List (String × Nat))
    (hby : ∀ id i, Map_get byId id = some i → inheritedMember id = false)
    (r : Rebuild) (c : ClusterSnapshot) (h : PlainChildren r.children) :
    PlainChildren (rebuildStep env sel byId r c).children := by
  unfold rebuildStep
  split
  · exact h
  · split
    · split
      · rename_i i hget
        intro box hbox
        rcases List.mem_or_eq_of_mem_set hbox with hb | hb
        · exact h box hb
        · subst hb
          exact hby c.id i hget
      · split
        · exact h
        · rename_i hid
          intro box hbox
          simp only [List.mem_append, List.mem_singleton] at hbox
          rcases hbox with hb | hb
          · exact h box hb
          · subst hb
            simpa using hid
    · exact h

theorem removalLoop_mem (clusterIds : List String) :
    ∀ (fuel i : Nat) (children : List ClusterBox) (box : ClusterBox),
      box ∈ removalLoop clusterIds fuel i children → box ∈ children := by
  intro fuel
  induction fuel with
  | zero => intro i children box h; exact h
  | succ fuel ih =>
    intro i children box h
    unfold removalLoop at h
    split at h
    · exact h
    · split at h
      · exact List.mem_of_mem_eraseIdx (ih _ _ _ h)
      · exact ih _ _ _ h

theorem update_plain {δ : Type} (env : Collaborators δ) (a : App)
    (h : PlainChildren a.children) : PlainChildren (update env a).children := by
  have hby : ∀ id i, Map_get (clusterComponentById a.children) id = some i →
      inheritedMember id = false := by
    intro id i hget
    obtain ⟨box, hbox, rfl⟩ := clusterComponentById_keys a.children id i hget
    exact h box hbox
  have hr : PlainChildren (updatePass env a).2.rebuilt.children := by
    rw [updatePass_rebuilt]
    exact foldl_invariant (fun r : Rebuild => PlainChildren r.children) _
      (fun r c hr => rebuildStep_plain env _ _ hby r c hr) _ _ h
  have hchildren : (update env a).children =
      (if (updatePass env a).2.rebuilt.threw then (updatePass env a).2.rebuilt.children
       else removalLoop (updatePass env a).2.rebuilt.clusterIds
        ((updatePass env a).2.rebuilt.children.length + 1) 0
        (updatePass env a).2.rebuilt.children) := by
    unfold update updatePass
    dsimp only
    split
    · rename_i ht; simp only [ht, if_true]
    · rename_i ht; simp only [ht, if_false, Bool.false_eq_true, filter]
  rw [hchildren]
  split
  · exact hr
  · intro box hbox
    exact hr box (removalLoop_mem _ _ _ _ box hbox)

theorem step_plain {δ : Type} (env : Collaborators δ) (a : App) (act : Action δ)
    (h : PlainChildren a.children) : PlainChildren (step env a act).children := by
  have hkeepAlive : ∀ b : App, PlainChildren b.children →
      PlainChildren (keepAlive b).children := by
    intro b hb
    rw [(keepAlive_fields b).2.2.2.2.2.2.2.2.1]
    exact hb
  have hconnect : ∀ b : App, PlainChildren b.children → PlainChildren (connect b).children := by
    intro b hb
    rw [(connect_view b).2.2]
    exact hb
  have hdisconnect : ∀ b : App, PlainChildren b.children →
      PlainChildren (disconnect b).children := by
    intro b hb
    rw [(disconnect_view b).2.2]
    exact hb
  cases act with
  | connect => exact hconnect a h
  | disconnect => exact hdisconnect a h
  | keepAlive => exact hkeepAlive a h
  | toggleCluster clusterId =>
    simp only [step, toggleCluster]
    apply update_plain
    apply hconnect
    split <;> exact h
  | timerFires timer =>
    simp only [step]
    split
    · exact hconnect _ h
    · exact h
  | error source closed =>
    simp only [step]
    split
    · have honerror : ∀ b : App, PlainChildren b.children →
          PlainChildren (onerror b).children := by
        intro b hb
        unfold onerror
        dsimp only
        split
        · exact hconnect _ hb
        · exact hdisconnect _ hb
      apply honerror
      cases closed <;> exact h
    · exact h
  | clusterupdate source data =>
    simp only [step]
    split
    · have hk := hkeepAlive { a with _errors := .num 0 } h
      unfold onClusterupdate
      cases JSON_parse data with
      | none => exact hk
      | some cluster =>
        simp only [settle_ite]
        exact update_plain env _ hk
    · exact h
  | clusterdelta source data =>
    simp only [step]
    split
    · have hk := hkeepAlive { a with _errors := .num 0 } h
      unfold onClusterdelta
      cases JSON_parse data with
      | none => exact hk
      | some d =>
        simp only
        split
        · split
          · exact hk
          · simp only [settle_ite]
            exact update_plain env _ hk
        · exact hk
    · exact h

/-- In every state the application reaches, no component shows a cluster whose
id names an inherited member; in particular none has the id `__proto__`. -/
theorem run_children_ids {δ : Type} (env : Collaborators δ) (hash : String)
    (actions : List (Action δ)) :
    PlainChildren (run env (App.constructor hash) actions).children := by
  unfold run
  refine foldl_invariant (fun a : App => PlainChildren a.children) (step env)
    (fun a act h => step_plain env a act h) actions _ ?_
  intro box hbox
  simp [App.constructor] at hbox

/-- A stored cluster whose id names an inherited member stops every run of
`update`: with `a`, `constructor` and `z` stored, the lookup
`clusterComponentById['constructor']` answers with the inherited function,
`draw()` throws, `z` gets no position in that run and the pods of
`constructor` never reach `seenPods`. -/
theorem update_throws_at_inherited_id :
    updateThrows sampleEnv inheritedIdApp = true ∧
    (updatePass sampleEnv inheritedIdApp).2.rebuilt.layout = [("a", 0)] ∧
    (update sampleEnv inheritedIdApp).seenPods = ["a/default/web", "z/default/web"] ∧
    podKeysOf (sortedClusters inheritedIdApp.clusters)
      = ["a/default/web", "constructor/default/web", "z/default/web"] := by
  decide

/-! ## Cluster components -/

/-- C5, at the input of the scenario: with components for `c1`, `c2`, `c3`
shown and no filter, `toggleCluster('c1')` runs one `update`. Its removal loop
takes `c2` out of `viewContainer.children` while iterating over that array, so
the iterator steps over `c3`: the components of `c1` and of `c3` remain,
although only `c1` is selected. -/
theorem unselected_component_survives :
    threeShownApp.children.map (fun box => box.cluster.id) = ["c1", "c2", "c3"] ∧
    (toggleCluster sampleEnv threeShownApp "c1").selectedClusters = ["c1"] ∧
    (toggleCluster sampleEnv threeShownApp "c1").clusters.map (fun e => e.1)
      = ["c1", "c2", "c3"] ∧
    (toggleCluster sampleEnv threeShownApp "c1").children.map (fun box => box.cluster.id)
      = ["c1", "c3"] := by
  decide

/-! ## Order of the clusters -/

theorem unitsLe_refl (x : List Nat) : unitsLe x x = true := by
  induction x with
  | nil => rfl
  | cons a x ih => simp [unitsLe, ih]

theorem unitsLe_total (x : List Nat) : ∀ y, unitsLe x y = true ∨ unitsLe y x = true := by
  induction x with
  | nil => intro y; exact Or.inl (by cases y <;> rfl)
  | cons a x ih =>
    intro y
    cases y with
    | nil => exact Or.inr rfl
    | cons b y =>
      simp only [unitsLe, Bool.or_eq_true, decide_eq_true_eq, Bool.and_eq_true, beq_iff_eq]
      rcases Nat.lt_trichotomy a b with h | h | h
      · exact Or.inl (Or.inl h)
      · rcases ih y with h' | h'
        · exact Or.inl (Or.inr ⟨h, h'⟩)
        · exact Or.inr (Or.inr ⟨h.symm, h'⟩)
      · exact Or.inr (Or.inl h)

theorem unitsLe_trans (x : List Nat) :
    ∀ y z, unitsLe x y = true → unitsLe y z = true → unitsLe x z = true := by
  induction x with
  | nil => intro y z _ _; cases z <;> rfl
  | cons a x ih =>
    intro y z hxy hyz
    cases y with
    | nil => simp [unitsLe] at hxy
    | cons b y =>
      cases z with
      | nil => simp [unitsLe] at hyz
      | cons c z =>
        simp only [unitsLe, Bool.or_eq_true, decide_eq_true_eq, Bool.and_eq_true,
          beq_iff_eq] at hxy hyz ⊢
        rcases hxy with h1 | ⟨h1, h1'⟩
        · rcases hyz with h2 | ⟨h2, _⟩
          · exact Or.inl (lt_trans h1 h2)
          · exact Or.inl (h2 ▸ h1)
        · rcases hyz with h2 | ⟨h2, h2'⟩
          · exact Or.inl (h1 ▸ h2)
          · exact Or.inr ⟨h1.trans h2, ih y z h1' h2'⟩

instance jsLe_isTotal : IsTotal String jsLe := ⟨fun _ _ => unitsLe_total _ _⟩

instance jsLe_isTrans : IsTrans String jsLe := ⟨fun _ _ _ h₁ h₂ => unitsLe_trans _ _ _ h₁ h₂⟩

instance entryLe_isTotal : IsTotal (String × ClusterSnapshot) entryLe :=
  ⟨fun _ _ => unitsLe_total _ _⟩

instance entryLe_isTrans : IsTrans (String × ClusterSnapshot) entryLe :=
  ⟨fun _ _ _ h₁ h₂ => unitsLe_trans _ _ _ h₁ h₂⟩

theorem unitsLe_append_sep (c : Nat) (t : List Nat) (x : List Nat) :
    ∀ y, (∀ u ∈ x, c < u) → (∀ u ∈ y, c < u) →
      unitsLe (x ++ c :: t) (y ++ c :: t) = unitsLe x y := by
  induction x with
  | nil =>
    intro y _ hy
    cases y with
    | nil => simp [unitsLe, unitsLe_refl]
    | cons b y =>
      have hb : c < b := hy b (List.mem_cons_self _ _)
      simp [unitsLe, hb]
  | cons a x ih =>
    intro y hx hy
    have ha : c < a := hx a (List.mem_cons_self _ _)
    cases y with
    | nil =>
      have h1 : ¬ a < c := by omega
      have h2 : ¬ a = c := by omega
      simp [unitsLe, h1, h2]
    | cons b y =>
      have h := ih y (fun u hu => hx u (List.mem_cons_of_mem _ hu))
        (fun u hu => hy u (List.mem_cons_of_mem _ hu))
      show (decide (a < b) || (a == b && unitsLe (x ++ c :: t) (y ++ c :: t))) =
        (decide (a < b) || (a == b && unitsLe x y))
      rw [h]

theorem unitsOf_append (x y : List Char) : unitsOf (x ++ y) = unitsOf x ++ unitsOf y := by
  induction x with
  | nil => rfl
  | cons c x ih => simp [unitsOf, ih]

theorem codeUnits_append (a b : String) : codeUnits (a ++ b) = codeUnits a ++ codeUnits b := by
  simp [codeUnits, unitsOf_append]

theorem unitsOf_gt (x : List Char) (h : ∀ c ∈ x, 44 < c.toNat) : ∀ u ∈ unitsOf x, 44 < u := by
  induction x with
  | nil => intro u hu; simp [unitsOf] at hu
  | cons c x ih =>
    intro u hu
    simp only [unitsOf, List.mem_append] at hu
    rcases hu with hu | hu
    · have hc := h c (List.mem_cons_self _ _)
      unfold charUnits at hu
      split at hu
      · simp only [List.mem_singleton] at hu
        omega
      · simp only [List.mem_cons, List.mem_singleton, List.not_mem_nil, or_false] at hu
        rcases hu with hu | hu <;> omega
    · exact ih (fun c hc => h c (List.mem_cons_of_mem _ hc)) u hu

theorem entryString_le_iff (a b : String) (ha : SafeId a) (hb : SafeId b) :
    jsLe (a ++ ",[object Object]") (b ++ ",[object Object]") ↔ jsLe a b := by
  unfold jsLe
  rw [codeUnits_append, codeUnits_append]
  have hs : codeUnits ",[object Object]" =
      44 :: [91, 111, 98, 106, 101, 99, 116, 32, 79, 98, 106, 101, 99, 116, 93] := by decide
  rw [hs]
  exact Eq.to_iff (congrArg (fun v => v = true)
    (unitsLe_append_sep 44 _ (codeUnits a) (codeUnits b) (unitsOf_gt _ ha) (unitsOf_gt _ hb)))

theorem disconnect_clusters (a : App) : (disconnect a).clusters = a.clusters := by
  unfold disconnect
  cases a.eventSource <;> rfl

theorem connect_clusters (a : App) : (connect a).clusters = a.clusters := by
  unfold connect
  rw [(keepAlive_fields _).2.2.1]
  exact disconnect_clusters _

theorem onerror_clusters (a : App) : (onerror a).clusters = a.clusters := by
  unfold onerror
  dsimp only
  split
  · rw [connect_clusters]
  · rw [disconnect_clusters]

theorem storeStep_keyed {δ : Type} (patch : ClusterSnapshot → δ → Option ClusterSnapshot)
    (store : List (String × ClusterSnapshot)) (h : KeyedById store) (e : StoreEvent δ) :
    KeyedById (storeStep patch store e) := by
  cases e with
  | snapshot s => exact Map_set_keyed store s h
  | delta c d =>
    simp only [storeStep]
    cases Map_get store c with
    | none => exact h
    | some base =>
      simp only
      cases patch base d with
      | none => exact h
      | some patched => exact Map_set_keyed store patched h

theorem step_keyed {δ : Type} (env : Collaborators δ) (a : App) (act : Action δ)
    (h : KeyedById a.clusters) : KeyedById (step env a act).clusters := by
  cases act with
  | connect => simp only [step]; rw [connect_clusters]; exact h
  | disconnect => simp only [step]; rw [disconnect_clusters]; exact h
  | keepAlive => simp only [step]; rw [(keepAlive_fields _).2.2.1]; exact h
  | toggleCluster clusterId =>
    simp only [step, toggleCluster]
    rw [(update_connection env _).2.2.2.2.2, connect_clusters]
    split <;> exact h
  | timerFires timer =>
    simp only [step]
    split
    · rw [connect_clusters]; exact h
    · exact h
  | error source closed =>
    simp only [step]
    split
    · rw [onerror_clusters]
      cases closed <;> exact h
    · exact h
  | clusterupdate source data =>
    simp only [step]
    split
    · cases data with
      | malformed text =>
        simp only [onClusterupdate, JSON_parse, settle]
        rw [(keepAlive_fields _).2.2.1]
        exact h
      | wellFormed s =>
        rw [onClusterupdate_clusters]
        exact Map_set_keyed _ s h
    · exact h
  | clusterdelta source data =>
    simp only [step]
    split
    · cases data with
      | malformed text =>
        simp only [onClusterdelta, JSON_parse, settle]
        rw [(keepAlive_fields _).2.2.1]
        exact h
      | wellFormed d =>
        obtain ⟨c, delta⟩ := d
        cases delta with
        | none =>
          rw [onClusterdelta_no_base env a c none (Or.inr rfl), (keepAlive_fields _).2.2.1]
          exact h
        | some d =>
          rw [onClusterdelta_clusters]
          exact storeStep_keyed env.patch a.clusters h (.delta c d)
    · exact h

/-- In every state the application reaches, each stored snapshot sits under
its own id. -/
theorem run_keyed {δ : Type} (env : Collaborators δ) (hash : String)
    (actions : List (Action δ)) : KeyedById (run env (App.constructor hash) actions).clusters := by
  unfold run
  refine foldl_invariant (fun a : App => KeyedById a.clusters) (step env)
    (fun a act h => step_keyed env a act h) actions _ ?_
  intro kc hkc
  simp [App.constructor] at hkc

/-- C7, counterexample: with the ids `a` and `a!` stored, `update` walks the
snapshot of `a!` first, although `a` is the smaller id: default `sort()`
compares the texts `a,[object Object]` and `a!,[object Object]`, and `!` sorts
before the comma. -/
theorem sortedClusters_not_by_id :
    (sortedClusters [("a", sampleCluster "a"), ("a!", sampleCluster "a!")]).map (fun c => c.id)
      = ["a!", "a"] ∧
    jsLe "a" "a!" ∧ ¬ jsLe "a!" "a" := by
  decide

/-- C7, amended: for every content of `clusters` in which each snapshot sits
under its id, the enumeration used by `update` lists every stored snapshot
exactly once, in ascending order of the texts `id + ",[object Object]"` that
default `sort()` compares (by code unit). That is ascending order of cluster
id whenever no id contains a comma or a character sorting before it. When no
stored id names an inherited member of plain objects (and no component has
the id `__proto__`), `update` returns and has given the positions `y` in the
order of the enumeration, to the selected clusters; the positions given
increase strictly. -/
theorem sortedClusters_order {δ : Type} (env : Collaborators δ) (a : App)
    (hkeyed : KeyedById a.clusters) :
    (sortedClusters a.clusters).Perm (a.clusters.map (fun e => e.2)) ∧
    (sortedClusters a.clusters).Sorted
      (fun c₁ c₂ => jsLe (c₁.id ++ ",[object Object]") (c₂.id ++ ",[object Object]")) ∧
    ((∀ e ∈ a.clusters, SafeId e.1) →
      (sortedClusters a.clusters).Sorted (fun c₁ c₂ => jsLe c₁.id c₂.id)) ∧
    ((∀ e ∈ a.clusters, inheritedMember e.1 = false) →
      (∀ box ∈ a.children, box.cluster.id ≠ "__proto__") →
      updateThrows env a = false ∧
      (updatePass env a).2.rebuilt.layout.map (fun e => e.1) =
        ((sortedClusters a.clusters).filter (isSelected a.selectedClusters)).map
          (fun c => c.id)) ∧
    ((updatePass env a).2.rebuilt.layout.map (fun e => e.2)).Sorted (fun y₁ y₂ => y₁ < y₂) := by
  have hsorted : (a.clusters.insertionSort entryLe).Sorted entryLe :=
    List.sorted_insertionSort entryLe a.clusters
  have hmem : ∀ e ∈ a.clusters.insertionSort entryLe, e ∈ a.clusters :=
    fun e he => (List.perm_insertionSort entryLe a.clusters).mem_iff.mp he
  refine ⟨?_, ?_, ?_, ?_, ?_⟩
  · exact (List.perm_insertionSort entryLe a.clusters).map _
  · unfold sortedClusters List.Sorted
    rw [List.pairwise_map]
    refine List.Pairwise.imp_of_mem ?_ hsorted
    intro e₁ e₂ h₁ h₂ hle
    rw [hkeyed e₁ (hmem e₁ h₁), hkeyed e₂ (hmem e₂ h₂)]
    exact hle
  · intro hsafe
    unfold sortedClusters List.Sorted
    rw [List.pairwise_map]
    refine List.Pairwise.imp_of_mem ?_ hsorted
    intro e₁ e₂ h₁ h₂ hle
    rw [hkeyed e₁ (hmem e₁ h₁), hkeyed e₂ (hmem e₂ h₂)]
    exact (entryString_le_iff e₁.1 e₂.1 (hsafe e₁ (hmem e₁ h₁)) (hsafe e₂ (hmem e₂ h₂))).mp hle
  · intro hids _
    have hidsorted : ∀ c ∈ sortedClusters a.clusters, inheritedMember c.id = false := by
      intro c hc
      obtain ⟨e, he, rfl⟩ := (mem_sortedClusters _ _).mp hc
      rw [hkeyed e he]
      exact hids e he
    obtain ⟨r1, r2, _⟩ := rebuildLoop_ok env a.selectedClusters
      (clusterComponentById a.children) (sortedClusters a.clusters) hidsorted
      (startRebuild a (updatePass env a).2.afterDeletion.ALL_PODS) rfl
    rw [← updatePass_rebuilt env a] at r1 r2
    refine ⟨?_, ?_⟩
    · unfold updateThrows
      rw [updatePass_threw, r1]
    · rw [r2]
      simp [startRebuild]
  · rw [updatePass_rebuilt]
    exact (rebuildLoop_layoutInv env _ _ _ _ ⟨by simp [startRebuild], by simp [startRebuild]⟩).1

/-- C7, the amended claim for the store holding `c1`, `c2` and `c3`, all
selected: the enumeration is in order of id and the positions are given in
that order. -/
theorem sortedClusters_order_witness :
    (sortedClusters threeShownApp.clusters).Sorted (fun c₁ c₂ => jsLe c₁.id c₂.id) ∧
    (updatePass sampleEnv threeShownApp).2.rebuilt.layout.map (fun e => e.1) =
      ((sortedClusters threeShownApp.clusters).filter
        (isSelected threeShownApp.selectedClusters)).map (fun c => c.id) ∧
    (sortedClusters threeShownApp.clusters).map (fun c => c.id) = ["c1", "c2", "c3"] ∧
    (updatePass sampleEnv threeShownApp).2.rebuilt.layout = [("c1", 0), ("c2", 110), ("c3", 220)] :=
  ⟨(sortedClusters_order sampleEnv threeShownApp (by unfold KeyedById; decide)).2.2.1
      (by unfold SafeId; decide),
   ((sortedClusters_order sampleEnv threeShownApp (by unfold KeyedById; decide)).2.2.2.1
      (by decide) (by decide)).2,
   by decide, by decide⟩

/-! ## URL fragment -/

theorem splitChars_ne_nil (sep : Char) (l : List Char) : splitChars sep l ≠ [] := by
  cases l with
  | nil => simp [splitChars]
  | cons c cs =>
    unfold splitChars
    split
    · simp
    · split <;> simp

theorem splitChars_noSep (sep : Char) (p : List Char) (h : sep ∉ p) :
    splitChars sep p = [p] := by
  induction p with
  | nil => rfl
  | cons c cs ih =>
    have hc : c ≠ sep := fun e => h (e ▸ List.mem_cons_self _ _)
    have hcs : sep ∉ cs := fun e => h (List.mem_cons_of_mem _ e)
    simp [splitChars, hc, ih hcs]

theorem splitChars_append_sep (sep : Char) (p rest : List Char) (h : sep ∉ p) :
    splitChars sep (p ++ sep :: rest) = p :: splitChars sep rest := by
  induction p with
  | nil => simp [splitChars]
  | cons c cs ih =>
    have hc : c ≠ sep := fun e => h (e ▸ List.mem_cons_self _ _)
    have hcs : sep ∉ cs := fun e => h (List.mem_cons_of_mem _ e)
    simp [splitChars, hc, ih hcs]

theorem mem_splitChars (sep : Char) (l : List Char) :
    ∀ piece ∈ splitChars sep l, sep ∉ piece ∧ ∀ c ∈ piece, c ∈ l := by
  induction l with
  | nil =>
    intro piece hp
    simp [splitChars] at hp
    subst hp
    simp
  | cons c cs ih =>
    intro piece hp
    unfold splitChars at hp
    by_cases hc : c = sep
    · simp only [hc, if_true, List.mem_cons] at hp
      rcases hp with hp | hp
      · subst hp; simp
      · obtain ⟨h1, h2⟩ := ih piece hp
        exact ⟨h1, fun x hx => List.mem_cons_of_mem _ (h2 x hx)⟩
    · simp only [hc, if_false] at hp
      cases hs : splitChars sep cs with
      | nil => exact absurd hs (splitChars_ne_nil sep cs)
      | cons q qs =>
        rw [hs] at hp ih
        simp only [List.mem_cons] at hp
        rcases hp with hp | hp
        · obtain ⟨h1, h2⟩ := ih q (List.mem_cons_self _ _)
          subst hp
          refine ⟨?_, ?_⟩
          · intro hmem
            simp only [List.mem_cons] at hmem
            rcases hmem with hmem | hmem
            · exact hc hmem.symm
            · exact h1 hmem
          · intro x hx
            simp only [List.mem_cons] at hx ⊢
            rcases hx with hx | hx
            · exact Or.inl hx
            · exact Or.inr (h2 x hx)
        · obtain ⟨h1, h2⟩ := ih piece (List.mem_cons_of_mem _ hp)
          exact ⟨h1, fun x hx => List.mem_cons_of_mem _ (h2 x hx)⟩

theorem String_mk_data (s : String) : String.mk s.data = s := rfl

theorem split_join (sep : Char) (sepText : String) (hsep : sepText.data = [sep]) :
    ∀ l : List String, l ≠ [] → (∀ s ∈ l, sep ∉ s.data) → split sep (join sepText l) = l := by
  intro l
  induction l with
  | nil => intro h; exact absurd rfl h
  | cons s rest ih =>
    intro _ hall
    cases rest with
    | nil =>
      simp only [join, split]
      rw [splitChars_noSep sep s.data (hall s (List.mem_cons_self _ _))]
      rfl
    | cons t rest =>
      have hrec := ih (by simp) (fun x hx => hall x (List.mem_cons_of_mem _ hx))
      simp only [join, split, String.data_append, hsep, List.append_assoc, List.singleton_append]
      rw [splitChars_append_sep sep s.data _ (hall s (List.mem_cons_self _ _))]
      simp only [List.map_cons]
      unfold split at hrec
      rw [hrec]

theorem mem_join_data (sepText : String) :
    ∀ (l : List String) (c : Char), c ∈ (join sepText l).data →
      c ∈ sepText.data ∨ ∃ s ∈ l, c ∈ s.data := by
  intro l
  induction l with
  | nil => intro c hc; simp [join] at hc
  | cons s rest ih =>
    intro c hc
    cases rest with
    | nil =>
      simp only [join] at hc
      exact Or.inr ⟨s, List.mem_cons_self _ _, hc⟩
    | cons t rest =>
      simp only [join, String.data_append, List.mem_append] at hc
      rcases hc with (hc | hc) | hc
      · exact Or.inr ⟨s, List.mem_cons_self _ _, hc⟩
      · exact Or.inl hc
      · rcases ih c hc with h | ⟨x, hx, hcx⟩
        · exact Or.inl h
        · exact Or.inr ⟨x, List.mem_cons_of_mem _ hx, hcx⟩

theorem substring1_hash (s : String) : substring1 ("#" ++ s) = s := rfl

theorem split_encodePair (kv : String × String) (hk : '=' ∉ kv.1.data) (hv : '=' ∉ kv.2.data) :
    (split '=' (encodePair kv)).take 2 = [kv.1, kv.2] := by
  have hd : (encodePair kv).data = kv.1.data ++ '=' :: kv.2.data := by
    simp [encodePair]
  unfold split
  rw [hd, splitChars_append_sep '=' _ _ hk, splitChars_noSep '=' _ hv]
  rfl

theorem mem_split (sep : Char) (s piece : String) (h : piece ∈ split sep s) :
    sep ∉ piece.data ∧ ∀ c ∈ piece.data, c ∈ s.data := by
  unfold split at h
  simp only [List.mem_map] at h
  obtain ⟨p, hp, rfl⟩ := h
  exact mem_splitChars sep s.data p hp

theorem Map_set_keys {β : Type} (m : List (String × β)) (key : String) (val : β) :
    (Map_set m key val).map (fun kv => kv.1) =
      if key ∈ m.map (fun kv => kv.1) then m.map (fun kv => kv.1)
      else m.map (fun kv => kv.1) ++ [key] := by
  induction m with
  | nil => simp [Map_set]
  | cons kv rest ih =>
    obtain ⟨k, v⟩ := kv
    simp only [Map_set]
    by_cases hk : k = key
    · simp [hk]
    · have hk' : ¬ key = k := fun e => hk e.symm
      simp only [hk, if_false, List.map_cons, ih, List.mem_cons, hk', false_or]
      split <;> simp

theorem mem_Map_set {β : Type} (m : List (String × β)) (key : String) (val : β)
    (kv : String × β) (h : kv ∈ Map_set m key val) : kv = (key, val) ∨ kv ∈ m := by
  induction m with
  | nil => simp [Map_set] at h; exact Or.inl h
  | cons e rest ih =>
    obtain ⟨k, v⟩ := e
    simp only [Map_set] at h
    by_cases hk : k = key
    · simp only [hk, if_true, List.mem_cons] at h
      rcases h with h | h
      · exact Or.inl h
      · exact Or.inr (List.mem_cons_of_mem _ h)
    · simp only [hk, if_false, List.mem_cons] at h
      rcases h with h | h
      · exact Or.inr (h ▸ List.mem_cons_self _ _)
      · rcases ih h with h' | h'
        · exact Or.inl h'
        · exact Or.inr (List.mem_cons_of_mem _ h')

theorem Map_set_clean (m : List (String × String)) (key val : String) (hm : CleanMap m)
    (hk : Clean key) (hv : Clean val) : CleanMap (Map_set m key val) := by
  obtain ⟨h1, h2⟩ := hm
  refine ⟨?_, ?_⟩
  · rw [Map_set_keys]
    split
    · exact h1
    · rename_i hnot
      exact List.Nodup.append h1 (by simp) (by simpa using hnot)
  · intro kv hkv
    rcases mem_Map_set m key val kv hkv with h | h
    · subst h; exact ⟨hk, hv⟩
    · exact h2 kv h

theorem parseLocationHash_clean (hash : String) : CleanMap (parseLocationHash hash) := by
  unfold parseLocationHash
  refine foldl_invariant_mem CleanMap _ _ ?_ [] ⟨by simp, by simp⟩
  intro params pair hpair hp
  obtain ⟨hsemi, _⟩ := mem_split ';' _ pair hpair
  have hpieces : ∀ x ∈ (split '=' pair).take 2, Clean x := by
    intro x hx
    obtain ⟨h1, h2⟩ := mem_split '=' pair x (List.mem_of_mem_take hx)
    exact ⟨fun h => hsemi (h2 _ h), h1⟩
  split
  · rename_i k v heq
    rw [heq] at hpieces
    exact Map_set_clean params k v hp (hpieces k (by simp)) (hpieces v (by simp))
  · exact hp

theorem Map_get_eq_some_iff {β : Type} (m : List (String × β))
    (hm : (m.map (fun kv => kv.1)).Nodup) (k : String) (v : β) :
    Map_get m k = some v ↔ (k, v) ∈ m := by
  induction m with
  | nil => simp [Map_get]
  | cons e rest ih =>
    obtain ⟨k', v'⟩ := e
    simp only [List.map_cons, List.nodup_cons] at hm
    obtain ⟨hnot, hnd⟩ := hm
    simp only [Map_get, List.mem_cons, Prod.mk.injEq]
    by_cases hk : k' = k
    · subst hk
      simp only [if_true, Option.some.injEq, true_and]
      constructor
      · intro h; exact Or.inl h.symm
      · rintro (h | h)
        · exact h.symm
        · exact absurd (List.mem_map_of_mem (fun kv => kv.1) h) hnot
    · simp only [hk, if_false, ih hnd]
      constructor
      · exact Or.inr
      · rintro (⟨h, _⟩ | h)
        · exact absurd h.symm hk
        · exact h

theorem Map_get_congr {β : Type} (m₁ m₂ : List (String × β))
    (h₁ : (m₁.map (fun kv => kv.1)).Nodup) (h₂ : (m₂.map (fun kv => kv.1)).Nodup)
    (h : ∀ kv, kv ∈ m₁ ↔ kv ∈ m₂) (k : String) : Map_get m₁ k = Map_get m₂ k := by
  apply Option.ext
  intro v
  simp only [Option.mem_def]
  rw [Map_get_eq_some_iff m₁ h₁, Map_get_eq_some_iff m₂ h₂]
  exact h (k, v)

theorem foldl_Map_set_nodup {β : Type} (l : List (String × β)) :
    ∀ m : List (String × β), ((m ++ l).map (fun kv => kv.1)).Nodup →
      l.foldl (fun params kv => Map_set params kv.1 kv.2) m = m ++ l := by
  induction l with
  | nil => intro m _; simp
  | cons e rest ih =>
    intro m hnd
    have hset : Map_set m e.1 e.2 = m ++ [e] := by
      have hnot : e.1 ∉ m.map (fun kv => kv.1) := by
        intro hmem
        simp only [List.map_append, List.map_cons] at hnd
        obtain ⟨_, _, hdis⟩ := List.nodup_append.mp hnd
        exact hdis hmem (List.mem_cons_self _ _)
      clear hnd ih
      induction m with
      | nil => rfl
      | cons kv m ihm =>
        obtain ⟨k, v⟩ := kv
        simp only [List.map_cons, List.mem_cons, not_or] at hnot
        have hk : ¬ k = e.1 := fun h => hnot.1 h.symm
        simp only [Map_set, hk, if_false, List.cons_append, ihm hnot.2]
    simp only [List.foldl_cons, hset]
    rw [ih (m ++ [e]) (by simpa using hnd)]
    simp

theorem changeLocationHash_eq_writeHash (hash key value : String) :
    changeLocationHash hash key value = writeHash (Map_set (parseLocationHash hash) key value) :=
  rfl

theorem encodePair_no_semicolon (kv : String × String) (h : Clean kv.1 ∧ Clean kv.2) :
    ';' ∉ (encodePair kv).data := by
  have hd : (encodePair kv).data = kv.1.data ++ '=' :: kv.2.data := by
    simp [encodePair]
  rw [hd]
  simp only [List.mem_append, List.mem_cons, not_or]
  exact ⟨h.1.1, by decide, h.2.1⟩

theorem foldl_parse_encoded (l : List (String × String)) :
    ∀ m : List (String × String), (∀ kv ∈ l, Clean kv.1 ∧ Clean kv.2) →
      (l.map encodePair).foldl
        (fun params pair =>
          match (split '=' pair).take 2 with
          | [k, v] => Map_set params k v
          | _ => params) m =
      l.foldl (fun params kv => Map_set params kv.1 kv.2) m := by
  induction l with
  | nil => intro m _; rfl
  | cons kv rest ih =>
    intro m h
    have hkv := h kv (List.mem_cons_self _ _)
    simp only [List.map_cons, List.foldl_cons]
    rw [split_encodePair kv hkv.1.2 hkv.2.2]
    exact ih _ (fun e he => h e (List.mem_cons_of_mem _ he))

theorem CleanMap_of_perm (m₁ m₂ : List (String × String)) (hp : m₁.Perm m₂)
    (h : CleanMap m₂) : CleanMap m₁ :=
  ⟨(hp.map _).nodup_iff.mpr h.1, fun kv hkv => h.2 kv (hp.mem_iff.mp hkv)⟩

theorem CleanMap_filter (m : List (String × String)) (p : String × String → Bool)
    (h : CleanMap m) : CleanMap (m.filter p) :=
  ⟨(List.Sublist.map _ (List.filter_sublist m)).nodup h.1,
    fun kv hkv => h.2 kv (List.mem_of_mem_filter hkv)⟩

theorem parse_writeHash (params : List (String × String)) (h : CleanMap params) :
    ∃ written : List (String × String),
      written.Perm (params.filter (fun kv => kv.2 != "")) ∧
      parseLocationHash (writeHash params) = written ∧
      split ';' (substring1 (writeHash params)) =
        (if written = [] then [""] else written.map encodePair) ∧
      (written.map encodePair).Sorted jsLe := by
  have hsort : ((params.filter (fun kv => kv.2 != "")).map encodePair).insertionSort jsLe =
      ((params.filter (fun kv => kv.2 != "")).insertionSort pairLe).map encodePair :=
    (List.map_insertionSort pairLe jsLe encodePair _ (fun _ _ _ _ => Iff.rfl)).symm
  have hperm := List.perm_insertionSort pairLe (params.filter (fun kv => kv.2 != ""))
  have hclean : CleanMap ((params.filter (fun kv => kv.2 != "")).insertionSort pairLe) :=
    CleanMap_of_perm _ _ hperm (CleanMap_filter _ _ h)
  have hsorted : (((params.filter (fun kv => kv.2 != "")).insertionSort pairLe).map
      encodePair).Sorted jsLe := by
    rw [← hsort]
    exact List.sorted_insertionSort jsLe _
  refine ⟨(params.filter (fun kv => kv.2 != "")).insertionSort pairLe, hperm, ?_, ?_, hsorted⟩
  · unfold writeHash parseLocationHash
    rw [hsort, substring1_hash]
    generalize (params.filter (fun kv => kv.2 != "")).insertionSort pairLe = written at hclean
    cases hw : written with
    | nil => rfl
    | cons e rest =>
      rw [← hw]
      rw [split_join ';' ";" rfl (written.map encodePair) (by simp [hw])
        (by
          intro s hs
          simp only [List.mem_map] at hs
          obtain ⟨kv, hkv, rfl⟩ := hs
          exact encodePair_no_semicolon kv (hclean.2 kv hkv))]
      rw [foldl_parse_encoded written [] hclean.2]
      exact foldl_Map_set_nodup written [] (by simpa using hclean.1)
  · unfold writeHash
    rw [hsort, substring1_hash]
    generalize (params.filter (fun kv => kv.2 != "")).insertionSort pairLe = written at hclean
    cases hw : written with
    | nil => rfl
    | cons e rest =>
      rw [← hw]
      have hne : written ≠ [] := by simp [hw]
      simp only [hne, if_false]
      exact split_join ';' ";" rfl (written.map encodePair) (by simp [hw])
        (by
          intro s hs
          simp only [List.mem_map] at hs
          obtain ⟨kv, hkv, rfl⟩ := hs
          exact encodePair_no_semicolon kv (hclean.2 kv hkv))

theorem get_after_change (hash key value : String) (hk : Clean key) (hv : Clean value)
    (k v : String) :
    Map_get (parseLocationHash (changeLocationHash hash key value)) k = some v ↔
      Map_get (Map_set (parseLocationHash hash) key value) k = some v ∧ v ≠ "" := by
  have hm : CleanMap (Map_set (parseLocationHash hash) key value) :=
    Map_set_clean _ _ _ (parseLocationHash_clean hash) hk hv
  obtain ⟨written, hperm, hparse, _, _⟩ := parse_writeHash _ hm
  rw [changeLocationHash_eq_writeHash, hparse]
  have hw : CleanMap written := CleanMap_of_perm _ _ hperm (CleanMap_filter _ _ hm)
  rw [Map_get_eq_some_iff written hw.1, Map_get_eq_some_iff _ hm.1, hperm.mem_iff]
  simp [List.mem_filter]

theorem Set_of_nodup (l : List String) :
    ∀ acc : List String, (acc ++ l).Nodup → l.foldl Set_add acc = acc ++ l := by
  induction l with
  | nil => intro acc _; simp
  | cons x rest ih =>
    intro acc h
    have hx : x ∉ acc := by
      intro hmem
      obtain ⟨_, _, hdis⟩ := List.nodup_append.mp h
      exact hdis hmem (List.mem_cons_self _ _)
    have hadd : Set_add acc x = acc ++ [x] := by
      simp [Set_add, Set_has, hx]
    simp only [List.foldl_cons, hadd]
    rw [ih (acc ++ [x]) (by simpa using h)]
    simp

theorem join_clean (l : List String) (h : ∀ id ∈ l, CleanId id) : Clean (join "," l) := by
  refine ⟨?_, ?_⟩
  · intro hmem
    rcases mem_join_data "," l _ hmem with h' | ⟨s, hs, hc⟩
    · exact absurd h' (by decide)
    · exact (h s hs).2.2.1 hc
  · intro hmem
    rcases mem_join_data "," l _ hmem with h' | ⟨s, hs, hc⟩
    · exact absurd h' (by decide)
    · exact (h s hs).2.2.2 hc

theorem join_ne_empty (sepText s : String) (rest : List String) (h : s ≠ "") :
    join sepText (s :: rest) ≠ "" := by
  have hd : s.data ≠ [] := fun e => h (String.ext e)
  intro hj
  have : (join sepText (s :: rest)).data = [] := by rw [hj]
  cases rest with
  | nil => exact hd this
  | cons t rest =>
    simp only [join, String.data_append, List.append_eq_nil] at this
    exact hd this.1.1

theorem Map_get_of_iff {β : Type} (m : List (String × β)) (k : String) (o : Option β)
    (h : ∀ v, Map_get m k = some v ↔ o = some v) : Map_get m k = o := by
  cases hg : Map_get m k with
  | none =>
    cases o with
    | none => rfl
    | some v => exact absurd ((h v).mpr rfl) (by simp [hg])
  | some v => exact ((h v).mp hg).symm

/-- C9, counterexample: a filter string with `=` is cut at the `=` when read
back (`split('=', 2)` drops what follows a second `=`); a cluster id with a
comma comes back as two ids; and after a fragment `#q1=x` the pairs are
written as `q1=x;q=y`, the key `q1` before the smaller key `q`. -/
theorem fragment_round_trip_fails :
    readFilterString
      (changeLocationHash (changeLocationHash "" "q" "a=b") "clusters" (join "," ["c1"]))
      = "a" ∧
    readSelectedClusters
      (changeLocationHash (changeLocationHash "" "q" "") "clusters" (join "," ["a,b"]))
      = ["a", "b"] ∧
    changeLocationHash (changeLocationHash "#q1=x" "q" "y") "clusters" (join "," [])
      = "#q1=x;q=y" ∧
    jsLe "q" "q1" ∧ ¬ jsLe "q1" "q" := by
  decide

/-- C9, amended: for every existing fragment, every filter string `q` without
`;` and `=`, and every list `S` of distinct, non-empty cluster ids without
`,`, `;` and `=`, after `changeLocationHash('q', q)` and
`changeLocationHash('clusters', S.join(','))` the constructor reads back
exactly `q` and exactly `S`; and the pairs of the written fragment appear in
ascending order of their whole texts `key=value` (by code unit). -/
theorem fragment_round_trip (hash q : String) (S : List String) (hq : Clean q)
    (hS : ∀ id ∈ S, CleanId id) (hnd : S.Nodup) :
    readFilterString
      (changeLocationHash (changeLocationHash hash "q" q) "clusters" (join "," S)) = q ∧
    readSelectedClusters
      (changeLocationHash (changeLocationHash hash "q" q) "clusters" (join "," S)) = S ∧
    (split ';' (substring1
      (changeLocationHash (changeLocationHash hash "q" q) "clusters" (join "," S)))).Sorted
        jsLe := by
  have hcs : Clean (join "," S) := join_clean S hS
  have hkq : Clean "q" := by unfold Clean; decide
  have hkc : Clean "clusters" := by unfold Clean; decide
  have hne : ("q" : String) ≠ "clusters" := by decide
  have hgetq : Map_get (parseLocationHash
      (changeLocationHash (changeLocationHash hash "q" q) "clusters" (join "," S))) "q" =
      (if q = "" then none else some q) := by
    apply Map_get_of_iff
    intro v
    rw [get_after_change _ _ _ hkc hcs, Map_get_set_ne _ _ _ _ hne,
      get_after_change _ _ _ hkq hq, Map_get_set_eq]
    by_cases hqe : q = ""
    · simp only [hqe, if_true, Option.some.injEq]
      constructor
      · rintro ⟨⟨h1, h2⟩, _⟩
        exact absurd h1.symm h2
      · intro h; exact absurd h (by simp)
    · simp only [hqe, if_false, Option.some.injEq]
      constructor
      · rintro ⟨⟨h1, _⟩, _⟩; exact h1
      · intro h; subst h; exact ⟨⟨rfl, hqe⟩, hqe⟩
  have hgetc : Map_get (parseLocationHash
      (changeLocationHash (changeLocationHash hash "q" q) "clusters" (join "," S))) "clusters" =
      (if join "," S = "" then none else some (join "," S)) := by
    apply Map_get_of_iff
    intro v
    rw [get_after_change _ _ _ hkc hcs, Map_get_set_eq]
    by_cases hje : join "," S = ""
    · simp only [hje, if_true, Option.some.injEq]
      constructor
      · rintro ⟨h1, h2⟩
        exact absurd h1.symm h2
      · intro h; exact absurd h (by simp)
    · simp only [hje, if_false, Option.some.injEq]
      constructor
      · rintro ⟨h1, _⟩; exact h1
      · intro h; subst h; exact ⟨rfl, hje⟩
  refine ⟨?_, ?_, ?_⟩
  · unfold readFilterString
    rw [hgetq]
    by_cases hqe : q = ""
    · simp [hqe]
    · simp [hqe]
  · unfold readSelectedClusters
    rw [hgetc]
    cases hS' : S with
    | nil => decide
    | cons id rest =>
      rw [← hS']
      have hje : join "," S ≠ "" := by
        rw [hS']
        exact join_ne_empty "," id rest (hS id (by simp [hS'])).1
      simp only [hje, if_false, Option.getD_some]
      rw [split_join ',' "," rfl S (by simp [hS']) (fun s hs => (hS s hs).2.1)]
      have hfilter : S.filter (fun x => x != "") = S := by
        rw [List.filter_eq_self]
        intro s hs
        simpa using (hS s hs).1
      rw [hfilter]
      unfold Set_of
      rw [Set_of_nodup S [] (by simpa using hnd)]
      rfl
  · have hm : CleanMap (Map_set (parseLocationHash (changeLocationHash hash "q" q)) "clusters"
        (join "," S)) :=
      Map_set_clean _ _ _ (parseLocationHash_clean _) hkc hcs
    obtain ⟨written, _, _, hsplit, hsorted⟩ := parse_writeHash _ hm
    rw [changeLocationHash_eq_writeHash, hsplit]
    by_cases hw : written = []
    · simp [hw]
    · simp only [hw, if_false]
      exact hsorted

/-- C9, the amended claim for the fragment `#theme=dark`, the filter `web` and
the clusters `c1` and `c2`. -/
theorem fragment_round_trip_witness :
    readFilterString
      (changeLocationHash (changeLocationHash "#theme=dark" "q" "web") "clusters"
        (join "," ["c1", "c2"])) = "web" ∧
    readSelectedClusters
      (changeLocationHash (changeLocationHash "#theme=dark" "q" "web") "clusters"
        (join "," ["c1", "c2"])) = ["c1", "c2"] ∧
    changeLocationHash (changeLocationHash "#theme=dark" "q" "web") "clusters"
      (join "," ["c1", "c2"]) = "#clusters=c1,c2;q=web;theme=dark" :=
  ⟨(fragment_round_trip "#theme=dark" "web" ["c1", "c2"] (by unfold Clean; decide)
      (by unfold CleanId Clean; decide) (by decide)).1,
   (fragment_round_trip "#theme=dark" "web" ["c1", "c2"] (by unfold Clean; decide)
      (by unfold CleanId Clean; decide) (by decide)).2.1,
   by decide⟩

end KubeOpsView
